import Mathlib

/-!
Verification of the songs-catalog backend (Django REST service with a Redis
cache facade).  The development shallowly embeds the parts of the source that
the specification's claims are about:

* a model of the Python `json` module as used by the repository
  (`json.dumps` with the default separators and `ensure_ascii=True`, and
  `json.loads`), over the JSON values the service stores in its cache;
* the MD5 digest (`hashlib.md5(...).hexdigest()`) used by
  `SongViewSet._get_cache_key` in `songs/views.py`;
* the cache-key fingerprinting, the Django cache facade used by the views
  (`cache.get` / `cache.set` / `cache.delete_pattern` / `cache.clear`),
  the `RedisClient` facade from `app/utils/redis_client.py`, and
* the request handlers of `SongViewSet` (list, search, top_rated,
  most_played, stats, create, update, destroy, rate, play, load_data).

Machine integers are modelled as `Nat` with explicit reduction `% 2 ^ 32`
(resp. `% 2 ^ 64`) where the source relies on fixed-width arithmetic (MD5).
Python floats are modelled by their exact rational values (every IEEE double
is a rational number, and the comparisons performed by the source on them
are exact), with distinguished `nan` / `inf` values where `float()` can
produce them.
-/

namespace SongsRepo

/-! ## JSON values

The values the repository passes through the `json` module: the cache stores
serialized DRF response data (nested dicts/lists of strings and integers).
Python floats are omitted from this value type: no cached payload round-trip
claim depends on float formatting, and float text formatting is exactly the
kind of detail a shallow embedding cannot model faithfully. -/

inductive PyJson where
  | null
  | bool (b : Bool)
  | int (n : Int)
  | str (s : String)
  | arr (items : List PyJson)
  | obj (pairs : List (String × PyJson))
deriving BEq, Repr

/-! ## Serialization: `json.dumps`

Output matches CPython's `json.dumps(value)` with the default arguments:
item separator `", "`, key separator `": "`, `ensure_ascii=True` (so every
character outside printable ASCII is written as a `\uXXXX` escape, using a
surrogate pair for code points at or above `0x10000`). -/

/-- Lowercase hexadecimal digit character for `n % 16`, as CPython emits in
its `\uXXXX` escapes. -/
def hexChar (n : Nat) : Char :=
  if n % 16 < 10 then Char.ofNat (48 + n % 16) else Char.ofNat (87 + n % 16)

/-- The four hex digits of `n % 65536`, most significant first. -/
def hex4 (n : Nat) : List Char :=
  [hexChar (n / 4096), hexChar (n / 256), hexChar (n / 16), hexChar n]

/-- CPython's `py_encode_basestring_ascii` escaping of a single character:
quote and backslash get a two-character escape, the five named control
escapes are used where they exist, every other character outside
`0x20`–`0x7e` becomes `\uXXXX` (one escape below `0x10000`, a surrogate
pair above). -/
def escChar (c : Char) : List Char :=
  if c = '"' then ['\\', '"']
  else if c = '\\' then ['\\', '\\']
  else if c = Char.ofNat 8 then ['\\', 'b']
  else if c = Char.ofNat 9 then ['\\', 't']
  else if c = Char.ofNat 10 then ['\\', 'n']
  else if c = Char.ofNat 12 then ['\\', 'f']
  else if c = Char.ofNat 13 then ['\\', 'r']
  else if c.toNat < 32 ∨ 127 ≤ c.toNat then
    if c.toNat < 65536 then '\\' :: 'u' :: hex4 c.toNat
    else
      let m := c.toNat - 65536
      '\\' :: 'u' :: hex4 (55296 + m / 1024) ++ '\\' :: 'u' :: hex4 (56320 + m % 1024)
  else [c]

/-- A JSON string literal: quote, escaped characters, quote. -/
def renderStr (s : String) : List Char :=
  '"' :: (s.toList.flatMap escChar ++ ['"'])

/-- Decimal digits of `n`, most significant first, prepended to `acc`;
structurally recursive on a fuel bound so that it reduces definitionally
(the fuel is sufficient whenever `n < fuel`). -/
def natCharsAux : Nat → Nat → List Char → List Char
  | 0, _, acc => acc
  | fuel + 1, n, acc =>
      if n < 10 then Char.ofNat (48 + n % 10) :: acc
      else natCharsAux fuel (n / 10) (Char.ofNat (48 + n % 10) :: acc)

/-- Decimal digits of `n`, most significant first, prepended to `acc`. -/
def natChars (n : Nat) (acc : List Char) : List Char :=
  natCharsAux (n + 1) n acc

/-- Decimal form of an integer, as Python prints it. -/
def intChars (i : Int) : List Char :=
  (if i < 0 then ['-'] else []) ++ natChars i.natAbs []

mutual

/-- Characters of `json.dumps` for one value. -/
def renderJson : PyJson → List Char
  | .str s => renderStr s
  | .int i => intChars i
  | .bool false => ['f', 'a', 'l', 's', 'e']
  | .null => ['n', 'u', 'l', 'l']
  | .bool true => ['t', 'r', 'u', 'e']
  | .arr items => '[' :: (renderItems items ++ [']'])
  | .obj pairs => '{' :: (renderPairs pairs ++ ['}'])
termination_by structural v => v

/-- Array items joined by `", "` (Python's default item separator). -/
def renderItems : List PyJson → List Char
  | [] => []
  | [x] => renderJson x
  | x :: y :: rest => renderJson x ++ ',' :: ' ' :: renderItems (y :: rest)

/-- Object members: `"key": value` joined by `", "`. -/
def renderPairs : List (String × PyJson) → List Char
  | [] => []
  | [(k, v)] => renderStr k ++ ':' :: ' ' :: renderJson v
  | (k, v) :: p :: rest =>
      renderStr k ++ ':' :: ' ' :: renderJson v ++ ',' :: ' ' :: renderPairs (p :: rest)

end

/-- The model of `json.dumps(value)` with CPython's default arguments. -/
def jsonDumps (v : PyJson) : String := String.mk (renderJson v)

/-! ## Deserialization: `json.loads`

A recursive-descent parser for the JSON grammar, total by a fuel argument.
Two deliberate deviations from CPython, both outside the repository's data:
number texts with a fraction or exponent are rejected rather than parsed as
floats (floats are outside the value model), and a lone surrogate escape is
rejected (a Lean `Char` cannot carry one; CPython would keep it). Neither
text is producible by `jsonDumps` on a `PyJson` value. -/

/-- JSON whitespace, as accepted between tokens by `json.loads`. -/
def isJsonWs (c : Char) : Bool :=
  c = ' ' || c = Char.ofNat 9 || c = Char.ofNat 10 || c = Char.ofNat 13

/-- Drop leading JSON whitespace. -/
def dropWs : List Char → List Char
  | c :: cs => if isJsonWs c then dropWs cs else c :: cs
  | [] => []

/-- Value of one hexadecimal digit (either case), if it is one. -/
def hexDigitVal (c : Char) : Option Nat :=
  if '0' ≤ c ∧ c ≤ '9' then some (c.toNat - 48)
  else if 'a' ≤ c ∧ c ≤ 'f' then some (c.toNat - 87)
  else if 'A' ≤ c ∧ c ≤ 'F' then some (c.toNat - 55)
  else none

/-- Value of a four-hex-digit group, as in a `\uXXXX` escape. -/
def hexQuad (a b c d : Char) : Option Nat := do
  let x ← hexDigitVal a
  let y ← hexDigitVal b
  let z ← hexDigitVal c
  let w ← hexDigitVal d
  pure (((x * 16 + y) * 16 + z) * 16 + w)

/-- Single-character escapes accepted after a backslash. -/
def unescChar (e : Char) : Option Char :=
  if e = '"' then some '"'
  else if e = '\\' then some '\\'
  else if e = '/' then some '/'
  else if e = 'b' then some (Char.ofNat 8)
  else if e = 't' then some (Char.ofNat 9)
  else if e = 'n' then some (Char.ofNat 10)
  else if e = 'f' then some (Char.ofNat 12)
  else if e = 'r' then some (Char.ofNat 13)
  else none

/-- Continue a `\uXXXX` escape whose group value is `n`: a high surrogate
must be followed by a low-surrogate escape and the pair decodes to one code
point (as in CPython); a lone surrogate is rejected (not a Lean `Char`);
anything else decodes directly. -/
def readUEscape2 (n : Nat) (rest : List Char) : Option (Char × List Char) :=
  if 55296 ≤ n ∧ n < 56320 then
    match rest with
    | c2 :: e2 :: a2 :: b2 :: d3 :: d4 :: rest2 =>
        if c2 = '\\' ∧ e2 = 'u' then
          match hexQuad a2 b2 d3 d4 with
          | none => none
          | some m =>
            if 56320 ≤ m ∧ m < 57344 then
              some (Char.ofNat (65536 + (n - 55296) * 1024 + (m - 56320)), rest2)
            else none
        else none
    | _ => none
  else if 56320 ≤ n ∧ n < 57344 then none
  else some (Char.ofNat n, rest)

/-- Decode one `\uXXXX` group after the `\u`: four hex digits, then the
surrogate handling of `readUEscape2`. -/
def readUEscape (cs : List Char) : Option (Char × List Char) :=
  match cs with
  | a :: b :: d1 :: d2 :: rest =>
      match hexQuad a b d1 d2 with
      | none => none
      | some n => readUEscape2 n rest
  | _ => none

/-- Parse the body of a string literal after its opening quote, accumulating
decoded characters in reverse; structurally recursive on a fuel bound (one
unit per decoded character, so any fuel above the input length is enough). -/
def readStrBody : Nat → List Char → List Char → Option (String × List Char)
  | 0, _, _ => none
  | fuel + 1, acc, cs =>
    match cs with
    | [] => none
    | c :: cs2 =>
      if c = '"' then some (String.mk acc.reverse, cs2)
      else if c = '\\' then
        match cs2 with
        | [] => none
        | e :: cs3 =>
          if e = 'u' then
            match readUEscape cs3 with
            | some (ch, rest) => readStrBody fuel (ch :: acc) rest
            | none => none
          else
            match unescChar e with
            | some ch => readStrBody fuel (ch :: acc) cs3
            | none => none
      else if c.toNat < 32 then none
      else readStrBody fuel (c :: acc) cs2
termination_by structural fuel _ _ => fuel

/-- Parse a whole string literal body with ample fuel (the model of CPython's
scanstring, called after the opening quote). -/
def readStr (cs : List Char) : Option (String × List Char) :=
  readStrBody (cs.length + 1) [] cs

/-- Decimal digit test, as a boolean. -/
def isDigitCh (c : Char) : Bool := '0' ≤ c && c ≤ '9'

/-- Split off a leading run of decimal digits. -/
def spanDigits : List Char → List Char × List Char
  | c :: cs =>
      if isDigitCh c then
        let (ds, r) := spanDigits cs
        (c :: ds, r)
      else ([], c :: cs)
  | [] => ([], [])

/-- Numeric value of a digit run. -/
def digitsVal (ds : List Char) : Nat :=
  ds.foldl (fun acc c => acc * 10 + (c.toNat - 48)) 0

/-- True when the remainder would extend a number into a float form. -/
def floatTail : List Char → Bool
  | c :: _ => c = '.' || c = 'e' || c = 'E'
  | [] => false

/-- Parse an integer literal: optional minus sign, then digits. Fraction or
exponent parts would make a Python float and are rejected by the model. -/
def readInt : List Char → Option (Int × List Char)
  | [] => none
  | c :: t =>
    if c = '-' then
      match spanDigits t with
      | ([], _) => none
      | (ds, r) => if floatTail r then none else some (-(digitsVal ds : Int), r)
    else
      match spanDigits (c :: t) with
      | ([], _) => none
      | (ds, r) => if floatTail r then none else some ((digitsVal ds : Int), r)

mutual

/-- Parse one JSON value (fuel-bounded recursive descent; the dispatch on
the first character is by conditionals over a structural list match). -/
def parseVal : Nat → List Char → Option (PyJson × List Char)
  | 0, _ => none
  | fuel + 1, cs =>
    match dropWs cs with
    | [] => none
    | c :: rest =>
      if c = 'n' then
        match rest with
        | u1 :: u2 :: u3 :: r => if u1 = 'u' ∧ u2 = 'l' ∧ u3 = 'l' then some (.null, r) else none
        | _ => none
      else if c = 't' then
        match rest with
        | u1 :: u2 :: u3 :: r => if u1 = 'r' ∧ u2 = 'u' ∧ u3 = 'e' then some (.bool true, r) else none
        | _ => none
      else if c = 'f' then
        match rest with
        | u1 :: u2 :: u3 :: u4 :: r =>
            if u1 = 'a' ∧ u2 = 'l' ∧ u3 = 's' ∧ u4 = 'e' then some (.bool false, r) else none
        | _ => none
      else if c = '"' then
        match readStr rest with
        | some (s, r) => some (.str s, r)
        | none => none
      else if c = '[' then
        match dropWs rest with
        | [] => none
        | c2 :: r2 =>
            if c2 = ']' then some (.arr [], r2)
            else
              match parseItems fuel (c2 :: r2) with
              | some (items, r3) => some (.arr items, r3)
              | none => none
      else if c = '{' then
        match dropWs rest with
        | [] => none
        | c2 :: r2 =>
            if c2 = '}' then some (.obj [], r2)
            else
              match parsePairs fuel (c2 :: r2) with
              | some (pairs, r3) => some (.obj pairs, r3)
              | none => none
      else if c = '-' || isDigitCh c then
        match readInt (c :: rest) with
        | some (i, r) => some (.int i, r)
        | none => none
      else none
termination_by structural fuel _ => fuel

/-- Parse one or more comma-separated array items up to the closing bracket. -/
def parseItems : Nat → List Char → Option (List PyJson × List Char)
  | 0, _ => none
  | fuel + 1, cs =>
    match parseVal fuel cs with
    | none => none
    | some (v, r) =>
        match dropWs r with
        | [] => none
        | c :: r2 =>
            if c = ',' then
              match parseItems fuel r2 with
              | some (vs, r3) => some (v :: vs, r3)
              | none => none
            else if c = ']' then some ([v], r2)
            else none
termination_by structural fuel _ => fuel

/-- Parse one or more comma-separated object members up to the closing brace. -/
def parsePairs : Nat → List Char → Option (List (String × PyJson) × List Char)
  | 0, _ => none
  | fuel + 1, cs =>
    match dropWs cs with
    | [] => none
    | c :: r =>
      if c = '"' then
        match readStr r with
        | none => none
        | some (k, r1) =>
            match dropWs r1 with
            | [] => none
            | c2 :: r2 =>
                if c2 = ':' then
                  match parseVal fuel r2 with
                  | none => none
                  | some (v, r3) =>
                      match dropWs r3 with
                      | [] => none
                      | c3 :: r4 =>
                          if c3 = ',' then
                            match parsePairs fuel r4 with
                            | some (ps, r5) => some ((k, v) :: ps, r5)
                            | none => none
                          else if c3 = '}' then some ([(k, v)], r4)
                          else none
                else none
      else none
termination_by structural fuel _ => fuel

end

/-- The model of `json.loads(text)`: parse one value, then require only
whitespace to remain. `none` models a raised `JSONDecodeError`. -/
def jsonLoads (s : String) : Option PyJson :=
  match parseVal (s.data.length + 1) s.data with
  | some (v, r) => if (dropWs r).isEmpty then some v else none
  | none => none

/-! ## The codec round-trip

CPython's `json.loads(json.dumps(v)) == v` on the modelled values, proved
bottom-up: digits, integers, escapes, strings, then the grammar. -/

theorem natCharsAux_fuel_irrel (f1 : Nat) :
    ∀ (f2 n : Nat) (acc : List Char), n < f1 → n < f2 →
      natCharsAux f1 n acc = natCharsAux f2 n acc := by
  induction f1 with
  | zero => intro f2 n acc h1 _; omega
  | succ f ih =>
      intro f2 n acc h1 h2
      cases f2 with
      | zero => omega
      | succ f2a =>
          simp only [natCharsAux]
          by_cases h : n < 10
          · simp [h]
          · simp only [if_neg h]
            exact ih _ _ _ (by omega) (by omega)

theorem natChars_eq (n : Nat) (acc : List Char) :
    natChars n acc =
      if n < 10 then Char.ofNat (48 + n % 10) :: acc
      else natChars (n / 10) (Char.ofNat (48 + n % 10) :: acc) := by
  by_cases h : n < 10
  · simp [natChars, natCharsAux, h]
  · simp only [natChars, natCharsAux, if_neg h]
    exact natCharsAux_fuel_irrel n (n / 10 + 1) (n / 10)
      (Char.ofNat (48 + n % 10) :: acc) (by omega) (by omega)

theorem natChars_shift (n : Nat) : ∀ acc : List Char,
    natChars n acc = natChars n [] ++ acc := by
  induction n using Nat.strong_induction_on with
  | _ n ih =>
      intro acc
      rw [natChars_eq n acc, natChars_eq n []]
      by_cases h : n < 10
      · simp [h]
      · simp only [if_neg h]
        rw [ih (n / 10) (by omega), ih (n / 10) (by omega) [Char.ofNat (48 + n % 10)]]
        simp

theorem natChars_unfold (n : Nat) :
    natChars n [] =
      (if n < 10 then [] else natChars (n / 10) []) ++ [Char.ofNat (48 + n % 10)] := by
  rw [natChars_eq]
  by_cases h : n < 10
  · simp [h]
  · simp only [if_neg h]
    exact natChars_shift (n / 10) [Char.ofNat (48 + n % 10)]

theorem natChars_ne_nil (n : Nat) : natChars n [] ≠ [] := by
  rw [natChars_unfold]; simp

/-- The decimal digit character for a remainder: its class and its value. -/
theorem digitChar_spec (r : Nat) (h : r < 10) :
    ('0' ≤ Char.ofNat (48 + r) ∧ Char.ofNat (48 + r) ≤ '9')
      ∧ (Char.ofNat (48 + r)).toNat = 48 + r := by
  interval_cases r <;> exact ⟨by decide, by decide⟩

/-- Everything a digit character is not, for parser-branch navigation. -/
theorem digit_separations {c : Char} (hlo : '0' ≤ c) (hhi : c ≤ '9') :
    isJsonWs c = false ∧ isDigitCh c = true
      ∧ c ≠ ']' ∧ c ≠ '}' ∧ c ≠ ',' ∧ c ≠ '-' ∧ c ≠ '.' ∧ c ≠ 'e' ∧ c ≠ 'E'
      ∧ c ≠ '"' ∧ c ≠ '{' ∧ c ≠ 'n' ∧ c ≠ '[' ∧ c ≠ 't' ∧ c ≠ 'f' := by
  refine ⟨?_, ?_, ?_, ?_, ?_, ?_, ?_, ?_, ?_, ?_, ?_, ?_, ?_, ?_, ?_⟩
  · simp only [isJsonWs, Bool.or_eq_false_iff, decide_eq_false_iff_not]
    refine ⟨⟨⟨?_, ?_⟩, ?_⟩, ?_⟩ <;> (intro hc; subst hc; exact absurd hlo (by decide))
  · simp [isDigitCh, hlo, hhi]
  all_goals (intro hc; subst hc; first
    | exact absurd hlo (by decide)
    | exact absurd hhi (by decide))

theorem natChars_digits (n : Nat) : ∀ c ∈ natChars n [], '0' ≤ c ∧ c ≤ '9' := by
  induction n using Nat.strong_induction_on with
  | _ n ih =>
      rw [natChars_unfold]
      intro c hc
      rcases List.mem_append.mp hc with h | h
      · by_cases h10 : n < 10
        · simp [h10] at h
        · exact ih (n / 10) (by omega) c (by simpa [h10] using h)
      · rw [List.mem_singleton] at h
        subst h
        exact (digitChar_spec (n % 10) (by omega)).1

theorem foldl_digits_natChars (n : Nat) :
    (natChars n []).foldl (fun acc c => acc * 10 + (c.toNat - 48)) 0 = n := by
  induction n using Nat.strong_induction_on with
  | _ n ih =>
      rw [natChars_unfold, List.foldl_append]
      by_cases h : n < 10
      · simp only [if_pos h, List.foldl_nil, List.foldl_cons]
        rw [(digitChar_spec (n % 10) (by omega)).2]
        omega
      · simp only [if_neg h, List.foldl_cons, List.foldl_nil]
        rw [ih (n / 10) (by omega), (digitChar_spec (n % 10) (by omega)).2]
        omega

theorem digitsVal_natChars (n : Nat) : digitsVal (natChars n []) = n :=
  foldl_digits_natChars n

/-- A list whose head cannot continue a digit run or a number. -/
def numStop : List Char → Bool
  | [] => true
  | c :: _ => !(isDigitCh c || c = '.' || c = 'e' || c = 'E')

theorem spanDigits_stop {cs : List Char} (h : numStop cs = true) :
    spanDigits cs = ([], cs) := by
  match cs with
  | [] => rfl
  | c :: t =>
      simp only [numStop, Bool.not_eq_eq_eq_not, Bool.not_true, Bool.or_eq_false_iff,
        decide_eq_false_iff_not] at h
      simp [spanDigits, h.1.1.1]

theorem spanDigits_run (ds : List Char) (hds : ∀ c ∈ ds, '0' ≤ c ∧ c ≤ '9')
    (rest : List Char) (hrest : spanDigits rest = ([], rest)) :
    spanDigits (ds ++ rest) = (ds, rest) := by
  induction ds with
  | nil => simpa using hrest
  | cons c t ih =>
      obtain ⟨h1, h2⟩ := hds c (by simp)
      have hd : isDigitCh c = true := by simp [isDigitCh, h1, h2]
      have ht := ih fun x hx => hds x (by simp [hx])
      simp [spanDigits, hd, ht]

theorem numStop_not_float {cs : List Char} (h : numStop cs = true) :
    floatTail cs = false := by
  match cs with
  | [] => rfl
  | c :: t =>
      simp only [numStop, Bool.not_eq_eq_eq_not, Bool.not_true, Bool.or_eq_false_iff,
        decide_eq_false_iff_not] at h
      simp [floatTail, h.1.1.2, h.1.2, h.2]

/-- The integer codec round-trip: `readInt` inverts `intChars` in front of any
remainder that cannot extend the number. -/
theorem readInt_intChars (i : Int) (rest : List Char) (hr : numStop rest = true) :
    readInt (intChars i ++ rest) = some (i, rest) := by
  have hspan := spanDigits_run (natChars i.natAbs []) (natChars_digits _) rest
    (spanDigits_stop hr)
  have hval : digitsVal (natChars i.natAbs []) = i.natAbs := digitsVal_natChars _
  rcases hnil : natChars i.natAbs [] with _ | ⟨c, t⟩
  · exact absurd hnil (natChars_ne_nil _)
  rw [hnil] at hspan hval
  rw [List.cons_append] at hspan
  by_cases hneg : i < 0
  · have harg : intChars i ++ rest = '-' :: (c :: (t ++ rest)) := by
      simp [intChars, hneg, hnil]
    rw [harg]
    simp only [readInt, if_pos rfl, hspan, hval]
    simp only [if_true, numStop_not_float hr, Bool.false_eq_true, if_false,
      Option.some.injEq, Prod.mk.injEq, and_true]
    omega
  · obtain ⟨hc0, hc9⟩ := natChars_digits i.natAbs c (by rw [hnil]; simp)
    obtain ⟨-, -, -, -, -, hcm, -⟩ := digit_separations hc0 hc9
    have harg : intChars i ++ rest = c :: (t ++ rest) := by
      simp [intChars, hneg, hnil]
    rw [harg]
    simp only [readInt, if_neg hcm, hspan, hval]
    simp only [numStop_not_float hr, Bool.false_eq_true, if_false,
      Option.some.injEq, Prod.mk.injEq, and_true]
    omega

/-- A character's code point avoids the surrogate range and the Unicode bound,
by the validity invariant carried by `Char`. -/
theorem char_code_ranges (c : Char) :
    (c.toNat < 55296 ∨ (57343 < c.toNat ∧ c.toNat < 1114112)) := c.valid

theorem hexDigitVal_if (r : Nat) (h : r < 16) :
    hexDigitVal (if r < 10 then Char.ofNat (48 + r) else Char.ofNat (87 + r)) = some r := by
  interval_cases r <;> decide

theorem hexDigitVal_hexChar (m : Nat) : hexDigitVal (hexChar m) = some (m % 16) :=
  hexDigitVal_if (m % 16) (Nat.mod_lt _ (by omega))

theorem hexQuad_hex4 (n : Nat) (h : n < 65536) :
    hexQuad (hexChar (n / 4096)) (hexChar (n / 256)) (hexChar (n / 16)) (hexChar n)
      = some n := by
  simp only [hexQuad, hexDigitVal_hexChar, Option.bind_eq_bind, Option.some_bind,
    Option.pure_def, Option.some.injEq]
  omega

/-- Reading four rendered hex digits reduces to the continuation. -/
theorem readUEscape_hex4 (m : Nat) (hm : m < 65536) (X : List Char) :
    readUEscape (hex4 m ++ X) = readUEscape2 m X := by
  simp only [hex4, List.cons_append, List.nil_append]
  simp only [readUEscape, hexQuad_hex4 m hm]

/-- A non-surrogate group value decodes directly. -/
theorem readUEscape2_plain (m : Nat) (hno : ¬(55296 ≤ m ∧ m < 57344)) (X : List Char) :
    readUEscape2 m X = some (Char.ofNat m, X) := by
  have h1 : ¬(55296 ≤ m ∧ m < 56320) := by omega
  have h2 : ¬(56320 ≤ m ∧ m < 57344) := by omega
  simp [readUEscape2, h1, h2]

/-- A high-surrogate group followed by a low-surrogate escape decodes to the
combined code point. -/
theorem readUEscape2_high (m : Nat) (hHi : 55296 ≤ m ∧ m < 56320)
    (a2 b2 d3 d4 : Char) (lo : Nat) (hq : hexQuad a2 b2 d3 d4 = some lo)
    (hLo : 56320 ≤ lo ∧ lo < 57344) (rest2 : List Char) :
    readUEscape2 m ('\\' :: 'u' :: a2 :: b2 :: d3 :: d4 :: rest2)
      = some (Char.ofNat (65536 + (m - 55296) * 1024 + (lo - 56320)), rest2) := by
  simp [readUEscape2, if_pos hHi, hq, if_pos hLo]

/-- A single-group escape decodes to its code point (outside the surrogate
range). -/
theorem readUEscape_single (n : Nat) (hn : n < 65536) (hno : ¬(55296 ≤ n ∧ n < 57344))
    (rest : List Char) :
    readUEscape (hex4 n ++ rest) = some (Char.ofNat n, rest) := by
  rw [readUEscape_hex4 n hn rest, readUEscape2_plain n hno rest]

/-- A surrogate-pair escape decodes to the code point it encodes. -/
theorem readUEscape_pair (n : Nat) (hn : 65536 ≤ n) (hmax : n < 1114112)
    (rest : List Char) :
    readUEscape (hex4 (55296 + (n - 65536) / 1024)
        ++ '\\' :: 'u' :: (hex4 (56320 + (n - 65536) % 1024) ++ rest))
      = some (Char.ofNat n, rest) := by
  have hmod := Nat.mod_lt (n - 65536) (show 0 < 1024 by omega)
  have hHi : 55296 ≤ 55296 + (n - 65536) / 1024 ∧ 55296 + (n - 65536) / 1024 < 56320 := by
    omega
  have hLo : 56320 ≤ 56320 + (n - 65536) % 1024 ∧ 56320 + (n - 65536) % 1024 < 57344 := by
    omega
  have hq := hexQuad_hex4 (56320 + (n - 65536) % 1024) (by omega)
  rw [readUEscape_hex4 _ (by omega) _]
  simp only [hex4, List.cons_append, List.nil_append]
  rw [readUEscape2_high _ hHi _ _ _ _ _ hq hLo]
  rw [show 65536 + (55296 + (n - 65536) / 1024 - 55296) * 1024
      + (56320 + (n - 65536) % 1024 - 56320) = n from by omega]

/-- One decoded escape group advances the string scan by one character. -/
theorem readStrBody_ustep (fuel : Nat) (acc X rest : List Char) (ch : Char)
    (hu : readUEscape X = some (ch, rest)) :
    readStrBody (fuel + 1) acc ('\\' :: 'u' :: X) = readStrBody fuel (ch :: acc) rest := by
  simp [readStrBody, hu]

/-- Branch of the escape inverse: the escaped quote. -/
theorem esc_inv_quote (fuel : Nat) (acc rest : List Char) :
    readStrBody (fuel + 1) acc (escChar '"' ++ rest) = readStrBody fuel ('"' :: acc) rest := by
  simp [escChar, readStrBody, unescChar]

/-- Branch of the escape inverse: the escaped backslash. -/
theorem esc_inv_backslash (fuel : Nat) (acc rest : List Char) :
    readStrBody (fuel + 1) acc (escChar '\\' ++ rest)
      = readStrBody fuel ('\\' :: acc) rest := by
  simp [escChar, readStrBody, unescChar]

/-- Branch of the escape inverse: the five named control escapes. -/
theorem esc_inv_named (c : Char) (fuel : Nat) (acc rest : List Char)
    (h : c = Char.ofNat 8 ∨ c = Char.ofNat 9 ∨ c = Char.ofNat 10
      ∨ c = Char.ofNat 12 ∨ c = Char.ofNat 13) :
    readStrBody (fuel + 1) acc (escChar c ++ rest) = readStrBody fuel (c :: acc) rest := by
  rcases h with h | h | h | h | h
  all_goals (subst h; simp [escChar, readStrBody, unescChar])

/-- Branch of the escape inverse: printable ASCII emitted verbatim. -/
theorem esc_inv_plain (c : Char) (fuel : Nat) (acc rest : List Char)
    (h1 : c ≠ '"') (h2 : c ≠ '\\') (h3 : c ≠ Char.ofNat 8) (h4 : c ≠ Char.ofNat 9)
    (h5 : c ≠ Char.ofNat 10) (h6 : c ≠ Char.ofNat 12) (h7 : c ≠ Char.ofNat 13)
    (h8 : ¬(c.toNat < 32 ∨ 127 ≤ c.toNat)) :
    readStrBody (fuel + 1) acc (escChar c ++ rest) = readStrBody fuel (c :: acc) rest := by
  have hlt : ¬ c.toNat < 32 := by omega
  simp only [escChar, if_neg h1, if_neg h2, if_neg h3, if_neg h4, if_neg h5,
    if_neg h6, if_neg h7, if_neg h8, List.singleton_append]
  simp [readStrBody, if_neg h1, if_neg h2, hlt]

/-- Branch of the escape inverse: one hex escape group. -/
theorem esc_inv_uescape (c : Char) (fuel : Nat) (acc rest : List Char)
    (h1 : c ≠ '"') (h2 : c ≠ '\\') (h3 : c ≠ Char.ofNat 8) (h4 : c ≠ Char.ofNat 9)
    (h5 : c ≠ Char.ofNat 10) (h6 : c ≠ Char.ofNat 12) (h7 : c ≠ Char.ofNat 13)
    (h8 : c.toNat < 32 ∨ 127 ≤ c.toNat) (hlt : c.toNat < 65536) :
    readStrBody (fuel + 1) acc (escChar c ++ rest) = readStrBody fuel (c :: acc) rest := by
  have hno : ¬(55296 ≤ c.toNat ∧ c.toNat < 57344) := by
    rcases char_code_ranges c with hv | hv <;> omega
  have hu := readUEscape_single c.toNat hlt hno rest
  simp only [escChar, if_neg h1, if_neg h2, if_neg h3, if_neg h4, if_neg h5,
    if_neg h6, if_neg h7, if_pos h8, if_pos hlt, List.cons_append]
  rw [readStrBody_ustep fuel acc _ rest _ hu, Char.ofNat_toNat]

/-- Branch of the escape inverse: a surrogate-pair escape. -/
theorem esc_inv_pair (c : Char) (fuel : Nat) (acc rest : List Char)
    (h1 : c ≠ '"') (h2 : c ≠ '\\') (h3 : c ≠ Char.ofNat 8) (h4 : c ≠ Char.ofNat 9)
    (h5 : c ≠ Char.ofNat 10) (h6 : c ≠ Char.ofNat 12) (h7 : c ≠ Char.ofNat 13)
    (h8 : c.toNat < 32 ∨ 127 ≤ c.toNat) (hlt : ¬ c.toNat < 65536) :
    readStrBody (fuel + 1) acc (escChar c ++ rest) = readStrBody fuel (c :: acc) rest := by
  have hmax : c.toNat < 1114112 := by
    rcases char_code_ranges c with hv | hv <;> omega
  have hu := readUEscape_pair c.toNat (by omega) hmax rest
  simp only [escChar, if_neg h1, if_neg h2, if_neg h3, if_neg h4, if_neg h5,
    if_neg h6, if_neg h7, if_pos h8, if_neg hlt, List.cons_append, List.append_assoc]
  rw [readStrBody_ustep fuel acc _ rest _ hu, Char.ofNat_toNat]

/-- Parsing one escaped character undoes `escChar`, consuming one fuel unit. -/
theorem readStrBody_escChar (c : Char) (fuel : Nat) (acc rest : List Char) :
    readStrBody (fuel + 1) acc (escChar c ++ rest) = readStrBody fuel (c :: acc) rest := by
  by_cases h1 : c = '"'
  · subst h1; exact esc_inv_quote fuel acc rest
  by_cases h2 : c = '\\'
  · subst h2; exact esc_inv_backslash fuel acc rest
  by_cases h3 : c = Char.ofNat 8
  · exact esc_inv_named c fuel acc rest (Or.inl h3)
  by_cases h4 : c = Char.ofNat 9
  · exact esc_inv_named c fuel acc rest (Or.inr (Or.inl h4))
  by_cases h5 : c = Char.ofNat 10
  · exact esc_inv_named c fuel acc rest (Or.inr (Or.inr (Or.inl h5)))
  by_cases h6 : c = Char.ofNat 12
  · exact esc_inv_named c fuel acc rest (Or.inr (Or.inr (Or.inr (Or.inl h6))))
  by_cases h7 : c = Char.ofNat 13
  · exact esc_inv_named c fuel acc rest (Or.inr (Or.inr (Or.inr (Or.inr h7))))
  by_cases h8 : c.toNat < 32 ∨ 127 ≤ c.toNat
  · by_cases hlt : c.toNat < 65536
    · exact esc_inv_uescape c fuel acc rest h1 h2 h3 h4 h5 h6 h7 h8 hlt
    · exact esc_inv_pair c fuel acc rest h1 h2 h3 h4 h5 h6 h7 h8 hlt
  · exact esc_inv_plain c fuel acc rest h1 h2 h3 h4 h5 h6 h7 h8

/-- Parsing a fully escaped character run stops exactly at the closing quote. -/
theorem readStrBody_escRun (cs : List Char) : ∀ (fuel : Nat) (acc rest : List Char),
    cs.length < fuel →
    readStrBody fuel acc (cs.flatMap escChar ++ '"' :: rest)
      = some (String.mk (acc.reverse ++ cs), rest) := by
  induction cs with
  | nil =>
      intro fuel acc rest hf
      cases fuel with
      | zero => omega
      | succ f => simp [readStrBody]
  | cons c t ih =>
      intro fuel acc rest hf
      cases fuel with
      | zero => omega
      | succ f =>
          rw [List.flatMap_cons, List.append_assoc, readStrBody_escChar,
            ih f (c :: acc) rest (by simp at hf; omega)]
          simp

/-- Escaping never shortens: the escape run is at least as long as the text. -/
theorem length_le_escRun (cs : List Char) : cs.length ≤ (cs.flatMap escChar).length := by
  induction cs with
  | nil => simp
  | cons c t ih =>
      have hc : 0 < (escChar c).length := by
        unfold escChar
        repeat' split
        all_goals simp
      simp only [List.flatMap_cons, List.length_append, List.length_cons]
      omega

/-- The string codec round-trip, from after the opening quote. -/
theorem readStr_renderStr (s : String) (rest : List Char) :
    readStr (s.toList.flatMap escChar ++ '"' :: rest) = some (s, rest) := by
  unfold readStr
  have hlen := length_le_escRun s.toList
  rw [readStrBody_escRun s.toList _ [] rest
    (by simp only [List.length_append, List.length_cons]; omega)]
  cases s
  simp [String.toList]

/-! ### Parser step lemmas

Each lemma reduces one grammar step of `parseVal` / `parseItems` /
`parsePairs` under hypotheses naming the intermediate results, so the
round-trip induction below composes them without large rewrites. -/

theorem dropWs_cons_of_not_ws {c : Char} (h : isJsonWs c = false) (cs : List Char) :
    dropWs (c :: cs) = c :: cs := by
  simp [dropWs, h]

theorem dropWs_cons_ws {c : Char} (h : isJsonWs c = true) (cs : List Char) :
    dropWs (c :: cs) = dropWs cs := by
  simp [dropWs, h]

theorem parseVal_null_step (f : Nat) (rest : List Char) :
    parseVal (f + 1) ('n' :: 'u' :: 'l' :: 'l' :: rest) = some (.null, rest) := by
  simp [parseVal, dropWs, isJsonWs]

theorem parseVal_true_step (f : Nat) (rest : List Char) :
    parseVal (f + 1) ('t' :: 'r' :: 'u' :: 'e' :: rest) = some (.bool true, rest) := by
  simp [parseVal, dropWs, isJsonWs]

theorem parseVal_false_step (f : Nat) (rest : List Char) :
    parseVal (f + 1) ('f' :: 'a' :: 'l' :: 's' :: 'e' :: rest) = some (.bool false, rest) := by
  simp [parseVal, dropWs, isJsonWs]

theorem parseVal_str_step (f : Nat) (X : List Char) (s : String) (r : List Char)
    (h : readStr X = some (s, r)) :
    parseVal (f + 1) ('"' :: X) = some (.str s, r) := by
  simp [parseVal, dropWs, isJsonWs, h]

theorem parseVal_int_step (f : Nat) (c0 : Char) (t : List Char) (i : Int) (r : List Char)
    (hws : isJsonWs c0 = false) (hq : c0 ≠ '"') (hbc : c0 ≠ '{') (hn : c0 ≠ 'n')
    (hbk : c0 ≠ '[') (ht : c0 ≠ 't') (hf : c0 ≠ 'f')
    (hg : (c0 = '-' || isDigitCh c0) = true)
    (h : readInt (c0 :: t) = some (i, r)) :
    parseVal (f + 1) (c0 :: t) = some (.int i, r) := by
  simp only [parseVal, dropWs_cons_of_not_ws hws]
  simp [hn, ht, hf, hq, hbk, hbc, hg, h]

theorem parseVal_arrNil_step (f : Nat) (rest : List Char) :
    parseVal (f + 1) ('[' :: ']' :: rest) = some (.arr [], rest) := by
  simp [parseVal, dropWs, isJsonWs]

theorem parseVal_arr_step (f : Nat) (X : List Char) (c2 : Char) (r2 : List Char)
    (items : List PyJson) (r3 : List Char)
    (hdw : dropWs X = c2 :: r2) (hne : c2 ≠ ']')
    (h : parseItems f (c2 :: r2) = some (items, r3)) :
    parseVal (f + 1) ('[' :: X) = some (.arr items, r3) := by
  simp [parseVal, dropWs, isJsonWs, hdw, hne, h]

theorem parseVal_objNil_step (f : Nat) (rest : List Char) :
    parseVal (f + 1) ('{' :: '}' :: rest) = some (.obj [], rest) := by
  simp [parseVal, dropWs, isJsonWs]

theorem parseVal_obj_step (f : Nat) (X : List Char) (c2 : Char) (r2 : List Char)
    (pairs : List (String × PyJson)) (r3 : List Char)
    (hdw : dropWs X = c2 :: r2) (hne : c2 ≠ '}')
    (h : parsePairs f (c2 :: r2) = some (pairs, r3)) :
    parseVal (f + 1) ('{' :: X) = some (.obj pairs, r3) := by
  simp [parseVal, dropWs, isJsonWs, hdw, hne, h]

theorem parseItems_comma_step (f : Nat) (cs : List Char) (v : PyJson) (r r2 : List Char)
    (vs : List PyJson) (r3 : List Char)
    (hv : parseVal f cs = some (v, r)) (hdw : dropWs r = ',' :: r2)
    (hrec : parseItems f r2 = some (vs, r3)) :
    parseItems (f + 1) cs = some (v :: vs, r3) := by
  simp [parseItems, hv, hdw, hrec]

theorem parseItems_close_step (f : Nat) (cs : List Char) (v : PyJson) (r r2 : List Char)
    (hv : parseVal f cs = some (v, r)) (hdw : dropWs r = ']' :: r2) :
    parseItems (f + 1) cs = some ([v], r2) := by
  simp [parseItems, hv, hdw]

theorem parsePairs_comma_step (f : Nat) (cs r : List Char) (k : String)
    (r1 r2 : List Char) (v : PyJson) (r3 r4 : List Char)
    (ps : List (String × PyJson)) (r5 : List Char)
    (hdw0 : dropWs cs = '"' :: r) (hk : readStr r = some (k, r1))
    (hdw1 : dropWs r1 = ':' :: r2) (hv : parseVal f r2 = some (v, r3))
    (hdw2 : dropWs r3 = ',' :: r4) (hrec : parsePairs f r4 = some (ps, r5)) :
    parsePairs (f + 1) cs = some ((k, v) :: ps, r5) := by
  simp [parsePairs, hdw0, hk, hdw1, hv, hdw2, hrec]

theorem parsePairs_close_step (f : Nat) (cs r : List Char) (k : String)
    (r1 r2 : List Char) (v : PyJson) (r3 r4 : List Char)
    (hdw0 : dropWs cs = '"' :: r) (hk : readStr r = some (k, r1))
    (hdw1 : dropWs r1 = ':' :: r2) (hv : parseVal f r2 = some (v, r3))
    (hdw2 : dropWs r3 = '}' :: r4) :
    parsePairs (f + 1) cs = some ([(k, v)], r4) := by
  simp [parsePairs, hdw0, hk, hdw1, hv, hdw2]

theorem parseVal_space (f : Nat) (cs : List Char) :
    parseVal f (' ' :: cs) = parseVal f cs := by
  cases f with
  | zero => simp [parseVal]
  | succ f =>
      simp only [parseVal]
      rw [dropWs_cons_ws (by decide) cs]

theorem parseItems_space (f : Nat) (cs : List Char) :
    parseItems f (' ' :: cs) = parseItems f cs := by
  cases f with
  | zero => simp [parseItems]
  | succ f =>
      simp only [parseItems]
      rw [parseVal_space]

theorem parsePairs_space (f : Nat) (cs : List Char) :
    parsePairs f (' ' :: cs) = parsePairs f cs := by
  cases f with
  | zero => simp [parsePairs]
  | succ f =>
      simp only [parsePairs]
      rw [dropWs_cons_ws (by decide) cs]

/-! ### The grammar round-trip -/

theorem numStop_nil : numStop [] = true := rfl

theorem numStop_comma (t : List Char) : numStop (',' :: t) = true := rfl

theorem numStop_rbracket (t : List Char) : numStop (']' :: t) = true := rfl

theorem numStop_rbrace (t : List Char) : numStop ('}' :: t) = true := rfl

/-- Every rendered value starts with a character that is not whitespace and
closes neither an array nor an object. -/
theorem renderJson_head (v : PyJson) :
    ∃ c t, renderJson v = c :: t ∧ isJsonWs c = false ∧ c ≠ ']' ∧ c ≠ '}' := by
  cases v with
  | null => refine ⟨'n', _, rfl, ?_, ?_, ?_⟩ <;> decide
  | bool b =>
      cases b with
      | true => refine ⟨'t', _, rfl, ?_, ?_, ?_⟩ <;> decide
      | false => refine ⟨'f', _, rfl, ?_, ?_, ?_⟩ <;> decide
  | str s => refine ⟨'"', _, rfl, ?_, ?_, ?_⟩ <;> decide
  | arr items => refine ⟨'[', _, rfl, ?_, ?_, ?_⟩ <;> decide
  | obj pairs => refine ⟨'{', _, rfl, ?_, ?_, ?_⟩ <;> decide
  | int i =>
      by_cases hneg : i < 0
      · refine ⟨'-', natChars i.natAbs [], ?_, ?_, ?_, ?_⟩
        · simp [renderJson, intChars, hneg]
        · decide
        · decide
        · decide
      · rcases hnil : natChars i.natAbs [] with _ | ⟨c, t⟩
        · exact absurd hnil (natChars_ne_nil _)
        · obtain ⟨hc0, hc9⟩ := natChars_digits i.natAbs c (by rw [hnil]; simp)
          obtain ⟨hws, -, hbr, hbc, -⟩ := digit_separations hc0 hc9
          refine ⟨c, t, ?_, hws, hbr, hbc⟩
          simp [renderJson, intChars, hneg, hnil]

/-- The first rendered item gives a nonempty, well-headed item run. -/
theorem renderItems_head (x : PyJson) (xs : List PyJson) :
    ∃ c t, renderItems (x :: xs) = c :: t ∧ isJsonWs c = false ∧ c ≠ ']' ∧ c ≠ '}' := by
  obtain ⟨c, t, hr, hws, hbr, hbc⟩ := renderJson_head x
  cases xs with
  | nil => exact ⟨c, t, by simp [renderItems, hr], hws, hbr, hbc⟩
  | cons y ys =>
      exact ⟨c, t ++ ',' :: ' ' :: renderItems (y :: ys),
        by simp [renderItems, hr], hws, hbr, hbc⟩

mutual

theorem rt_val : ∀ (v : PyJson) (fuel : Nat) (rest : List Char),
    (renderJson v).length < fuel → numStop rest = true →
    parseVal fuel (renderJson v ++ rest) = some (v, rest)
  | .null, fuel, rest, hf, _ => by
      cases fuel with
      | zero => exact absurd hf (by omega)
      | succ f => exact parseVal_null_step f rest
  | .bool true, fuel, rest, hf, _ => by
      cases fuel with
      | zero => exact absurd hf (by omega)
      | succ f => exact parseVal_true_step f rest
  | .bool false, fuel, rest, hf, _ => by
      cases fuel with
      | zero => exact absurd hf (by omega)
      | succ f => exact parseVal_false_step f rest
  | .str s, fuel, rest, hf, _ => by
      cases fuel with
      | zero => exact absurd hf (by omega)
      | succ f =>
          have harg : renderJson (.str s) ++ rest
              = '"' :: (s.toList.flatMap escChar ++ '"' :: rest) := by
            simp [renderJson, renderStr]
          rw [harg]
          exact parseVal_str_step f _ s rest (readStr_renderStr s rest)
  | .int i, fuel, rest, hf, hr => by
      cases fuel with
      | zero => exact absurd hf (by omega)
      | succ f =>
          have hri := readInt_intChars i rest hr
          by_cases hneg : i < 0
          · have hsh : intChars i ++ rest = '-' :: (natChars i.natAbs [] ++ rest) := by
              simp [intChars, hneg]
            rw [hsh] at hri
            have harg : renderJson (.int i) ++ rest
                = '-' :: (natChars i.natAbs [] ++ rest) := by
              simp [renderJson, intChars, hneg]
            rw [harg]
            exact parseVal_int_step f '-' _ i rest (by decide) (by decide) (by decide)
              (by decide) (by decide) (by decide) (by decide) (by decide) hri
          · rcases hnil : natChars i.natAbs [] with _ | ⟨c, t⟩
            · exact absurd hnil (natChars_ne_nil _)
            · obtain ⟨hc0, hc9⟩ := natChars_digits i.natAbs c (by rw [hnil]; simp)
              obtain ⟨hws, hdig, -, -, -, -, -, -, -, hq, hbc, hn, hbk, ht, hfc⟩ :=
                digit_separations hc0 hc9
              have hsh : intChars i ++ rest = c :: (t ++ rest) := by
                simp [intChars, hneg, hnil]
              rw [hsh] at hri
              have harg : renderJson (.int i) ++ rest = c :: (t ++ rest) := by
                simp [renderJson, intChars, hneg, hnil]
              rw [harg]
              exact parseVal_int_step f c _ i rest hws hq hbc hn hbk ht hfc
                (by simp [hdig]) hri
  | .arr [], fuel, rest, hf, _ => by
      cases fuel with
      | zero => exact absurd hf (by omega)
      | succ f =>
          have harg : renderJson (.arr []) ++ rest = '[' :: ']' :: rest := by
            simp [renderJson, renderItems]
          rw [harg]
          exact parseVal_arrNil_step f rest
  | .arr (x :: xs), fuel, rest, hf, _ => by
      cases fuel with
      | zero => exact absurd hf (by omega)
      | succ f =>
          obtain ⟨c, t, hhead, hws, hbr, hbc⟩ := renderItems_head x xs
          have hbound : (renderItems (x :: xs)).length + 1 < f := by
            have : (renderJson (.arr (x :: xs))).length
                = (renderItems (x :: xs)).length + 2 := by
              simp [renderJson]
            omega
          have hitems := rt_items x xs f rest hbound
          have hcons : renderItems (x :: xs) ++ ']' :: rest = c :: (t ++ ']' :: rest) := by
            rw [hhead, List.cons_append]
          rw [hcons] at hitems
          have harg : renderJson (.arr (x :: xs)) ++ rest
              = '[' :: (renderItems (x :: xs) ++ ']' :: rest) := by
            simp [renderJson]
          rw [harg, hcons]
          exact parseVal_arr_step f _ c (t ++ ']' :: rest) (x :: xs) rest
            (dropWs_cons_of_not_ws hws _) hbr hitems
  | .obj [], fuel, rest, hf, _ => by
      cases fuel with
      | zero => exact absurd hf (by omega)
      | succ f =>
          have harg : renderJson (.obj []) ++ rest = '{' :: '}' :: rest := by
            simp [renderJson, renderPairs]
          rw [harg]
          exact parseVal_objNil_step f rest
  | .obj ((k, v) :: ps), fuel, rest, hf, _ => by
      cases fuel with
      | zero => exact absurd hf (by omega)
      | succ f =>
          have hbound : (renderPairs ((k, v) :: ps)).length + 1 < f := by
            have : (renderJson (.obj ((k, v) :: ps))).length
                = (renderPairs ((k, v) :: ps)).length + 2 := by
              simp [renderJson]
            omega
          have hpairs := rt_pairs (k, v) ps f rest hbound
          obtain ⟨t0, ht0⟩ : ∃ t0, renderPairs ((k, v) :: ps) = '"' :: t0 := by
            cases ps with
            | nil =>
                exact ⟨k.data.flatMap escChar ++ '"' :: ':' :: ' ' :: renderJson v,
                  by simp [renderPairs, renderStr, String.toList]⟩
            | cons p ps2 =>
                exact ⟨k.data.flatMap escChar
                    ++ '"' :: ':' :: ' ' :: (renderJson v ++ ',' :: ' ' :: renderPairs (p :: ps2)),
                  by simp [renderPairs, renderStr, String.toList]⟩
          have hcons : renderPairs ((k, v) :: ps) ++ '}' :: rest
              = '"' :: (t0 ++ '}' :: rest) := by
            rw [ht0, List.cons_append]
          rw [hcons] at hpairs
          have harg : renderJson (.obj ((k, v) :: ps)) ++ rest
              = '{' :: (renderPairs ((k, v) :: ps) ++ '}' :: rest) := by
            simp [renderJson]
          rw [harg, hcons]
          exact parseVal_obj_step f _ '"' _ ((k, v) :: ps) rest
            (dropWs_cons_of_not_ws (by decide) _) (by decide) hpairs
  termination_by v _ _ _ _ => sizeOf v

theorem rt_items : ∀ (x : PyJson) (xs : List PyJson) (fuel : Nat) (rest : List Char),
    (renderItems (x :: xs)).length + 1 < fuel →
    parseItems fuel (renderItems (x :: xs) ++ ']' :: rest) = some (x :: xs, rest)
  | x, [], fuel, rest, hf => by
      cases fuel with
      | zero => exact absurd hf (by omega)
      | succ f =>
          have hbound : (renderJson x).length < f := by
            simp only [renderItems] at hf; omega
          have hv := rt_val x f (']' :: rest) hbound (numStop_rbracket rest)
          have harg : renderItems [x] ++ ']' :: rest = renderJson x ++ ']' :: rest := by
            simp [renderItems]
          rw [harg]
          exact parseItems_close_step f _ x (']' :: rest) rest hv
            (dropWs_cons_of_not_ws (by decide) rest)
  | x, y :: ys, fuel, rest, hf => by
      cases fuel with
      | zero => exact absurd hf (by omega)
      | succ f =>
          have hlen : (renderItems (x :: y :: ys)).length
              = (renderJson x).length + 2 + (renderItems (y :: ys)).length := by
            simp [renderItems]
            omega
          have hvb : (renderJson x).length < f := by omega
          have hrb : (renderItems (y :: ys)).length + 1 < f := by omega
          have hv := rt_val x f (',' :: ' ' :: (renderItems (y :: ys) ++ ']' :: rest)) hvb
            (numStop_comma _)
          have hrec : parseItems f (' ' :: (renderItems (y :: ys) ++ ']' :: rest))
              = some (y :: ys, rest) := by
            rw [parseItems_space]
            exact rt_items y ys f rest hrb
          have harg : renderItems (x :: y :: ys) ++ ']' :: rest
              = renderJson x ++ (',' :: ' ' :: (renderItems (y :: ys) ++ ']' :: rest)) := by
            simp [renderItems]
          rw [harg]
          exact parseItems_comma_step f _ x _ _ (y :: ys) rest hv
            (dropWs_cons_of_not_ws (by decide) _) hrec
  termination_by x xs _ _ _ => sizeOf x + sizeOf xs

theorem rt_pairs : ∀ (kv : String × PyJson) (ps : List (String × PyJson))
    (fuel : Nat) (rest : List Char),
    (renderPairs (kv :: ps)).length + 1 < fuel →
    parsePairs fuel (renderPairs (kv :: ps) ++ '}' :: rest) = some (kv :: ps, rest)
  | (k, v), [], fuel, rest, hf => by
      cases fuel with
      | zero => exact absurd hf (by omega)
      | succ f =>
          have hbound : (renderJson v).length < f := by
            simp only [renderPairs, renderStr, List.length_append, List.length_cons] at hf
            omega
          have harg : renderPairs [(k, v)] ++ '}' :: rest
              = '"' :: (k.toList.flatMap escChar
                  ++ '"' :: (':' :: ' ' :: (renderJson v ++ '}' :: rest))) := by
            simp [renderPairs, renderStr]
          rw [harg]
          have hk := readStr_renderStr k (':' :: ' ' :: (renderJson v ++ '}' :: rest))
          have hv : parseVal f (' ' :: (renderJson v ++ '}' :: rest))
              = some (v, '}' :: rest) := by
            rw [parseVal_space]
            exact rt_val v f ('}' :: rest) hbound (numStop_rbrace rest)
          exact parsePairs_close_step f _ _ k _ _ v _ rest
            (dropWs_cons_of_not_ws (by decide) _) hk
            (dropWs_cons_of_not_ws (by decide) _) hv
            (dropWs_cons_of_not_ws (by decide) rest)
  | (k, v), p :: ps, fuel, rest, hf => by
      cases fuel with
      | zero => exact absurd hf (by omega)
      | succ f =>
          have hlen : (renderPairs ((k, v) :: p :: ps)).length
              = (renderStr k).length + 2 + (renderJson v).length + 2
                + (renderPairs (p :: ps)).length := by
            simp [renderPairs]
            omega
          have hvb : (renderJson v).length < f := by omega
          have hrb : (renderPairs (p :: ps)).length + 1 < f := by omega
          have harg : renderPairs ((k, v) :: p :: ps) ++ '}' :: rest
              = '"' :: (k.toList.flatMap escChar
                  ++ '"' :: (':' :: ' ' :: (renderJson v
                      ++ ',' :: ' ' :: (renderPairs (p :: ps) ++ '}' :: rest)))) := by
            simp [renderPairs, renderStr]
          rw [harg]
          have hk := readStr_renderStr k
            (':' :: ' ' :: (renderJson v ++ ',' :: ' ' :: (renderPairs (p :: ps) ++ '}' :: rest)))
          have hv : parseVal f
              (' ' :: (renderJson v ++ ',' :: ' ' :: (renderPairs (p :: ps) ++ '}' :: rest)))
              = some (v, ',' :: ' ' :: (renderPairs (p :: ps) ++ '}' :: rest)) := by
            rw [parseVal_space]
            exact rt_val v f _ hvb (numStop_comma _)
          have hrec : parsePairs f (' ' :: (renderPairs (p :: ps) ++ '}' :: rest))
              = some (p :: ps, rest) := by
            rw [parsePairs_space]
            exact rt_pairs p ps f rest hrb
          exact parsePairs_comma_step f _ _ k _ _ v _ _ (p :: ps) rest
            (dropWs_cons_of_not_ws (by decide) _) hk
            (dropWs_cons_of_not_ws (by decide) _) hv
            (dropWs_cons_of_not_ws (by decide) _) hrec
  termination_by kv ps _ _ _ => sizeOf kv + sizeOf ps

end

/-- The codec round-trip of the whole grammar: `json.loads` recovers every
value `json.dumps` writes, exactly. -/
theorem jsonLoads_jsonDumps (v : PyJson) : jsonLoads (jsonDumps v) = some v := by
  have h := rt_val v ((renderJson v).length + 1) [] (by omega) numStop_nil
  rw [List.append_nil] at h
  simp [jsonLoads, jsonDumps, h, dropWs]

/-! ## MD5 (`hashlib.md5(...).hexdigest()`)

RFC 1321, over `Nat` with every 32-bit operation reduced explicitly modulo
`2 ^ 32`. `md5Hex` is the 32-character lowercase hex digest of the UTF-8
encoding of a string, exactly `hashlib.md5(text.encode()).hexdigest()`. -/

/-- The per-round left-rotation amounts. -/
def md5ShiftTable : List Nat :=
  [7, 12, 17, 22, 7, 12, 17, 22, 7, 12, 17, 22, 7, 12, 17, 22,
   5, 9, 14, 20, 5, 9, 14, 20, 5, 9, 14, 20, 5, 9, 14, 20,
   4, 11, 16, 23, 4, 11, 16, 23, 4, 11, 16, 23, 4, 11, 16, 23,
   6, 10, 15, 21, 6, 10, 15, 21, 6, 10, 15, 21, 6, 10, 15, 21]

/-- The sine-derived additive constants. -/
def md5SineTable : List Nat :=
  [0xd76aa478, 0xe8c7b756, 0x242070db, 0xc1bdceee,
   0xf57c0faf, 0x4787c62a, 0xa8304613, 0xfd469501,
   0x698098d8, 0x8b44f7af, 0xffff5bb1, 0x895cd7be,
   0x6b901122, 0xfd987193, 0xa679438e, 0x49b40821,
   0xf61e2562, 0xc040b340, 0x265e5a51, 0xe9b6c7aa,
   0xd62f105d, 0x02441453, 0xd8a1e681, 0xe7d3fbc8,
   0x21e1cde6, 0xc33707d6, 0xf4d50d87, 0x455a14ed,
   0xa9e3e905, 0xfcefa3f8, 0x676f02d9, 0x8d2a4c8a,
   0xfffa3942, 0x8771f681, 0x6d9d6122, 0xfde5380c,
   0xa4beea44, 0x4bdecfa9, 0xf6bb4b60, 0xbebfbc70,
   0x289b7ec6, 0xeaa127fa, 0xd4ef3085, 0x04881d05,
   0xd9d4d039, 0xe6db99e5, 0x1fa27cf8, 0xc4ac5665,
   0xf4292244, 0x432aff97, 0xab9423a7, 0xfc93a039,
   0x655b59c3, 0x8f0ccc92, 0xffeff47d, 0x85845dd1,
   0x6fa87e4f, 0xfe2ce6e0, 0xa3014314, 0x4e0811a1,
   0xf7537e82, 0xbd3af235, 0x2ad7d2bb, 0xeb86d391]

/-- Left rotation of a 32-bit word (`x < 2 ^ 32`). -/
def rotl32 (x c : Nat) : Nat := ((x <<< c) % 4294967296) ||| (x >>> (32 - c))

/-- The four MD5 bit mixers; 32-bit complement is xor with the all-ones word. -/
def md5F (b c d : Nat) : Nat := (b &&& c) ||| ((b ^^^ 4294967295) &&& d)

def md5G (b c d : Nat) : Nat := (d &&& b) ||| ((d ^^^ 4294967295) &&& c)

def md5H (b c d : Nat) : Nat := b ^^^ c ^^^ d

def md5I (b c d : Nat) : Nat := c ^^^ (b ||| (d ^^^ 4294967295))

/-- One of the 64 mixing rounds on state `(a, b, c, d)` with message words `M`. -/
def md5Mix (M : List Nat) (st : Nat × Nat × Nat × Nat) (i : Nat) : Nat × Nat × Nat × Nat :=
  let a := st.1
  let b := st.2.1
  let c := st.2.2.1
  let d := st.2.2.2
  let fg : Nat × Nat :=
    if i < 16 then (md5F b c d, i)
    else if i < 32 then (md5G b c d, (5 * i + 1) % 16)
    else if i < 48 then (md5H b c d, (3 * i + 5) % 16)
    else (md5I b c d, (7 * i) % 16)
  let mixed := (fg.1 + a + md5SineTable.getD i 0 + M.getD fg.2 0) % 4294967296
  (d, (b + rotl32 mixed (md5ShiftTable.getD i 0)) % 4294967296, b, c)

/-- Process one 16-word chunk: 64 rounds, then add into the running state. -/
def md5Chunk (st : Nat × Nat × Nat × Nat) (M : List Nat) : Nat × Nat × Nat × Nat :=
  let r := (List.range 64).foldl (md5Mix M) st
  ((st.1 + r.1) % 4294967296, (st.2.1 + r.2.1) % 4294967296,
   (st.2.2.1 + r.2.2.1) % 4294967296, (st.2.2.2 + r.2.2.2) % 4294967296)

/-- Little-endian 32-bit words of a byte list. -/
def leWords : List Nat → List Nat
  | b0 :: b1 :: b2 :: b3 :: rest =>
      (b0 + 256 * (b1 + 256 * (b2 + 256 * b3))) :: leWords rest
  | _ => []

/-- The eight little-endian bytes of the 64-bit message bit length. -/
def leBytes8 (n : Nat) : List Nat := (List.range 8).map fun i => n / 256 ^ i % 256

/-- The four little-endian bytes of a 32-bit word. -/
def leBytes4 (n : Nat) : List Nat :=
  [n % 256, n / 256 % 256, n / 65536 % 256, n / 16777216 % 256]

/-- MD5 padding: a `0x80` byte, zeros to 56 mod 64, the bit length in 64 bits. -/
def md5Pad (msg : List Nat) : List Nat :=
  msg ++ 128 :: List.replicate ((64 - (msg.length + 9) % 64) % 64) 0
    ++ leBytes8 ((8 * msg.length) % 18446744073709551616)

/-- Split a byte list into 64-byte chunks. -/
def chunks64 : List Nat → List (List Nat)
  | [] => []
  | c :: rest => ((c :: rest).take 64) :: chunks64 ((c :: rest).drop 64)
termination_by l => l.length
decreasing_by simp [List.length_drop]; omega

/-- The sixteen digest bytes of a byte message. -/
def md5Bytes (msg : List Nat) : List Nat :=
  let r := (chunks64 (md5Pad msg)).foldl (fun st chunk => md5Chunk st (leWords chunk))
    (0x67452301, 0xefcdab89, 0x98badcfe, 0x10325476)
  leBytes4 r.1 ++ leBytes4 r.2.1 ++ leBytes4 r.2.2.1 ++ leBytes4 r.2.2.2

/-- Two lowercase hex digits of a byte. -/
def byteHex (b : Nat) : List Char := [hexChar (b / 16), hexChar b]

/-- UTF-8 encoding of a string, as `str.encode()` produces. -/
def utf8Bytes (s : String) : List Nat :=
  s.data.flatMap fun c =>
    let n := c.toNat
    if n < 128 then [n]
    else if n < 2048 then [192 + n / 64, 128 + n % 64]
    else if n < 65536 then [224 + n / 4096, 128 + n / 64 % 64, 128 + n % 64]
    else [240 + n / 262144, 128 + n / 4096 % 64, 128 + n / 64 % 64, 128 + n % 64]

/-- The model of `hashlib.md5(text.encode()).hexdigest()`. -/
def md5Hex (text : String) : String :=
  String.mk ((md5Bytes (utf8Bytes text)).flatMap byteHex)

/-! ## Query fingerprinting (`SongViewSet._get_cache_key`, views.py 89–98)

The Python dict of query parameters is modelled in key-sorted canonical
form: the only observations the source makes of it are key lookup and
`json.dumps(params, sort_keys=True)`, and both are invariant under the
dict's internal ordering, so a by-key-sorted association list is a faithful
representation and plain `jsonDumps` of it equals the `sort_keys=True`
output. -/

/-- Lexicographic code-point comparison on character lists, the order
`sort_keys=True` sorts by (executable form of the standard list order). -/
def charsLt : List Char → List Char → Bool
  | _, [] => false
  | [], _ :: _ => true
  | a :: s, b :: t => if a < b then true else if b < a then false else charsLt s t

/-- String comparison by code points, as Python `<` on `str`. -/
def strLt (a b : String) : Bool := charsLt a.data b.data

theorem charsLt_iff (s : List Char) : ∀ t, charsLt s t = true ↔ s < t := by
  induction s with
  | nil =>
      intro t
      cases t with
      | nil =>
          simp only [charsLt, Bool.false_eq_true, false_iff]
          intro h
          cases h
      | cons b bs =>
          simp only [charsLt, true_iff]
          exact List.Lex.nil
  | cons a s ih =>
      intro t
      cases t with
      | nil =>
          simp only [charsLt, Bool.false_eq_true, false_iff]
          intro h
          cases h
      | cons b bs =>
          simp only [charsLt]
          by_cases hab : a < b
          · simp only [hab, if_pos, if_true, true_iff]
            exact List.Lex.rel hab
          · by_cases hba : b < a
            · simp only [hab, hba, if_neg, if_pos, if_true, if_false,
                Bool.false_eq_true, false_iff]
              intro h
              cases h with
              | rel h => exact absurd h hab
              | cons h => exact absurd hba (lt_irrefl _)
            · have heq : a = b := le_antisymm (le_of_not_lt hba) (le_of_not_lt hab)
              subst heq
              simp only [hab, hba, if_neg, if_false, ih bs]
              constructor
              · exact fun h => List.Lex.cons h
              · intro h
                cases h with
                | rel h => exact absurd h hab
                | cons h => exact h

theorem strLt_iff (a b : String) : strLt a b = true ↔ a < b :=
  (charsLt_iff a.data b.data).trans String.lt_iff_toList_lt.symm

/-- Python dict assignment `m[k] = v` on the key-sorted association list:
replace the binding if the key is present, insert in key order otherwise. -/
def dictInsert : List (String × String) → String → String → List (String × String)
  | [], k, v => [(k, v)]
  | (k2, v2) :: t, k, v =>
      if strLt k k2 then (k, v) :: (k2, v2) :: t
      else if k = k2 then (k, v) :: t
      else (k2, v2) :: dictInsert t k v

/-- The dict `dict(request.GET.items())` builds from the query parameters:
later pairs win for a repeated key (Django's QueryDict yields the last
value per key). -/
def paramsDict (pairs : List (String × String)) : List (String × String) :=
  pairs.foldl (fun m kv => dictInsert m kv.1 kv.2) []

/-- The model of `SongViewSet._get_cache_key`: collect the query parameters
into a dict, add the action name under the `action` key, serialize with
`json.dumps(params, sort_keys=True)`, hash with MD5, and compose
`songs_{action}_{hash}` (an f-string in the source). -/
def getCacheKey (queryParams : List (String × String)) (action : String) : String :=
  let params := dictInsert (paramsDict queryParams) "action" action
  let paramString := jsonDumps (.obj (params.map fun kv => (kv.1, .str kv.2)))
  let paramHash := md5Hex paramString
  "songs_" ++ action ++ "_" ++ paramHash

/-- Keys in the result of `dictInsert` come from the inserted key or the map. -/
theorem dictInsert_keys (m : List (String × String)) (k v : String) :
    ∀ e ∈ dictInsert m k v, e.1 = k ∨ e ∈ m := by
  induction m with
  | nil => simp [dictInsert]
  | cons h2 t ih =>
      obtain ⟨k2, v2⟩ := h2
      intro e he
      simp only [dictInsert] at he
      split at he
      · simp only [List.mem_cons] at he
        rcases he with he | he | he
        · simp [he]
        · right; simp [he]
        · right; simp [he]
      · split at he
        · simp only [List.mem_cons] at he
          rcases he with he | he
          · simp [he]
          · right; simp [he]
        · simp only [List.mem_cons] at he
          rcases he with he | he
          · right; simp [he]
          · rcases ih e he with h | h
            · simp [h]
            · right; simp [h]

/-- `dictInsert` preserves strict key sortedness. -/
theorem dictInsert_sorted (m : List (String × String)) (k v : String)
    (hm : m.Pairwise fun a b => a.1 < b.1) :
    (dictInsert m k v).Pairwise fun a b => a.1 < b.1 := by
  induction m with
  | nil => simp [dictInsert]
  | cons h2 t ih =>
      obtain ⟨k2, v2⟩ := h2
      rw [List.pairwise_cons] at hm
      obtain ⟨hall, ht⟩ := hm
      simp only [dictInsert]
      split
      · rename_i hlt
        rw [strLt_iff] at hlt
        rw [List.pairwise_cons]
        refine ⟨?_, by rw [List.pairwise_cons]; exact ⟨hall, ht⟩⟩
        intro e he
        simp only [List.mem_cons] at he
        rcases he with he | he
        · simp [he, hlt]
        · exact lt_trans hlt (hall e he)
      · split
        · rename_i hne heq
          subst heq
          rw [List.pairwise_cons]
          exact ⟨hall, ht⟩
        · rename_i hge hne
          rw [strLt_iff] at hge
          rw [List.pairwise_cons]
          refine ⟨?_, ih ht⟩
          intro e he
          rcases dictInsert_keys t k v e he with h | h
          · rw [h]
            rcases lt_trichotomy k k2 with hc | hc | hc
            · exact absurd hc hge
            · exact absurd hc hne
            · exact hc
          · exact hall e h

/-- The parameter dict is strictly sorted by key. -/
theorem paramsDict_sorted (pairs : List (String × String)) :
    (paramsDict pairs).Pairwise fun a b => a.1 < b.1 := by
  suffices h : ∀ (m : List (String × String)), (m.Pairwise fun a b => a.1 < b.1) →
      (pairs.foldl (fun m kv => dictInsert m kv.1 kv.2) m).Pairwise
        fun a b => a.1 < b.1 by
    exact h [] (by simp)
  induction pairs with
  | nil => intro m hm; simpa using hm
  | cons p t ih =>
      intro m hm
      exact ih (dictInsert m p.1 p.2) (dictInsert_sorted m p.1 p.2 hm)

/-- Lookup misses every entry whose key is above the probe. -/
theorem lookup_none_of_lt (k : String) (m : List (String × String))
    (h : ∀ e ∈ m, k < e.1) : List.lookup k m = none := by
  induction m with
  | nil => rfl
  | cons e t ih =>
      have hne : k ≠ e.1 := ne_of_lt (h e (by simp))
      obtain ⟨k2, v2⟩ := e
      have hb : (k == k2) = false := by simpa using hne
      simp only [List.lookup, hb]
      exact ih fun x hx => h x (by simp [hx])

/-- Two strictly key-sorted association lists with the same lookup function
are equal. -/
theorem sorted_lookup_ext : ∀ (m1 m2 : List (String × String)),
    (m1.Pairwise fun a b => a.1 < b.1) → (m2.Pairwise fun a b => a.1 < b.1) →
    (∀ k, List.lookup k m1 = List.lookup k m2) → m1 = m2
  | [], [], _, _, _ => rfl
  | [], (k2, v2) :: t2, _, _, h => by
      have := h k2
      simp [List.lookup] at this
  | (k1, v1) :: t1, [], _, _, h => by
      have := h k1
      simp [List.lookup] at this
  | (k1, v1) :: t1, (k2, v2) :: t2, h1, h2, h => by
      rw [List.pairwise_cons] at h1 h2
      obtain ⟨hall1, ht1⟩ := h1
      obtain ⟨hall2, ht2⟩ := h2
      have hkeys : k1 = k2 := by
        rcases lt_trichotomy k1 k2 with hc | hc | hc
        · exfalso
          have hb : (k1 == k2) = false := by simpa using ne_of_lt hc
          have hl := h k1
          simp only [List.lookup, beq_self_eq_true, hb] at hl
          rw [lookup_none_of_lt k1 t2 fun e he => lt_trans hc (hall2 e he)] at hl
          exact Option.noConfusion hl
        · exact hc
        · exfalso
          have hb : (k2 == k1) = false := by simpa using ne_of_lt hc
          have hl := h k2
          simp only [List.lookup, beq_self_eq_true, hb] at hl
          rw [lookup_none_of_lt k2 t1 fun e he => lt_trans hc (hall1 e he)] at hl
          exact Option.noConfusion hl
      subst hkeys
      have hvals : v1 = v2 := by
        have hl := h k1
        simp [List.lookup] at hl
        exact hl
      subst hvals
      have htails : t1 = t2 := by
        refine sorted_lookup_ext t1 t2 ht1 ht2 fun k => ?_
        by_cases hk : k = k1
        · subst hk
          rw [lookup_none_of_lt k t1 hall1, lookup_none_of_lt k t2 hall2]
        · have hb : (k == k1) = false := by simpa using hk
          have hl := h k
          simpa [List.lookup, hb] using hl
      rw [htails]

/-! ## Glob patterns

The pattern language used by `cache.delete_pattern` and by redis `KEYS`:
a `*` matches any run of characters; other characters match themselves.
Fuel-based so the matcher evaluates definitionally; each step consumes at
least one unit of pattern-plus-input length, so the supplied fuel always
suffices. -/

def globMatchF : Nat → List Char → List Char → Bool
  | 0, _, _ => false
  | _ + 1, [], cs => cs.isEmpty
  | f + 1, p :: ps, cs =>
      if p = '*' then
        globMatchF f ps cs
          || (match cs with
              | [] => false
              | _ :: cs2 => globMatchF f (p :: ps) cs2)
      else
        match cs with
        | [] => false
        | c :: cs2 => p = c && globMatchF f ps cs2
termination_by structural f _ _ => f

def globMatch (pat s : String) : Bool :=
  globMatchF (pat.length + s.length + 1) pat.data s.data

/-! ## The Redis cache facade (`app/utils/redis_client.py`)

The underlying redis-py client is modelled as a store of string entries
with absolute expiry times plus a `failing` flag: when `failing` is set,
every underlying command raises (a cache outage), which each facade
method's try/except turns into its failure return value. redis-py encodes
a `str` argument as-is and an `int` in decimal, and raises `DataError` for
other types; `SETEX` on a live connection replies OK, surfaced as `True`. -/

structure Redis where
  entries : List (String × String × Nat)
  failing : Bool
  infoData : List (String × PyJson)

/-- redis-py command-argument encoding; `none` models a raised `DataError`. -/
def redisEncode : PyJson → Option String
  | .str s => some s
  | .int n => some (String.mk (intChars n))
  | _ => none

def Redis.setexCmd (r : Redis) (now : Nat) (key : String) (ttl : Nat) (v : PyJson) :
    Except Unit (Bool × Redis) :=
  if r.failing then .error ()
  else
    match redisEncode v with
    | none => .error ()
    | some s =>
        .ok (true, { r with entries := (key, s, now + ttl) :: r.entries.filter fun e => e.1 != key })

def Redis.getCmd (r : Redis) (now : Nat) (key : String) : Except Unit (Option String) :=
  if r.failing then .error ()
  else
    .ok (match r.entries.find? fun e => e.1 == key with
        | some e => if now < e.2.2 then some e.2.1 else none
        | none => none)

def Redis.delCmd (r : Redis) (now : Nat) (keys : List String) : Except Unit (Nat × Redis) :=
  if r.failing then .error ()
  else
    .ok (keys.countP fun k =>
          ((r.entries.find? fun e => e.1 == k).map fun e => decide (now < e.2.2)).getD false,
        { r with entries := r.entries.filter fun e => !(keys.contains e.1) })

def Redis.existsCmd (r : Redis) (now : Nat) (key : String) : Except Unit Nat :=
  if r.failing then .error ()
  else
    .ok (match r.entries.find? fun e => e.1 == key with
        | some e => if now < e.2.2 then 1 else 0
        | none => 0)

def Redis.expireCmd (r : Redis) (now : Nat) (key : String) (ttl : Nat) :
    Except Unit (Bool × Redis) :=
  if r.failing then .error ()
  else
    match r.entries.find? fun e => e.1 == key with
    | some e =>
        if now < e.2.2 then
          let entries2 := r.entries.map fun e2 =>
            if e2.1 == key then (e2.1, e2.2.1, now + ttl) else e2
          .ok (true, { r with entries := entries2 })
        else .ok (false, r)
    | none => .ok (false, r)

def Redis.keysCmd (r : Redis) (now : Nat) (pattern : String) : Except Unit (List String) :=
  if r.failing then .error ()
  else .ok ((r.entries.filter fun e => decide (now < e.2.2) && globMatch pattern e.1).map (·.1))

def Redis.infoCmd (r : Redis) : Except Unit (List (String × PyJson)) :=
  if r.failing then .error () else .ok r.infoData

/-- `ttl = ttl or self.default_ttl`: Python `or` replaces both `None` and `0`
with the default of 3600 seconds. -/
def resolveTtl : Option Nat → Nat
  | none => 3600
  | some t => if t = 0 then 3600 else t

/-- `RedisClient.set`: dict/list values are serialized with `json.dumps`
first, then stored via `SETEX`; any raise is logged and reported as `False`. -/
def RedisClient.set (r : Redis) (now : Nat) (key : String) (value : PyJson)
    (ttl : Option Nat) : Bool × Redis :=
  let value2 := match value with
    | .obj pairs => PyJson.str (jsonDumps (.obj pairs))
    | .arr items => PyJson.str (jsonDumps (.arr items))
    | v => v
  match r.setexCmd now key (resolveTtl ttl) value2 with
  | .error _ => (false, r)
  | .ok (b, r2) => (b, r2)

/-- `RedisClient.get`: `None` when missing; otherwise `json.loads` of the
stored text, falling back to the raw decoded text; `None` on any raise. -/
def RedisClient.get (r : Redis) (now : Nat) (key : String) : Option PyJson :=
  match r.getCmd now key with
  | .error _ => none
  | .ok none => none
  | .ok (some s) =>
      match jsonLoads s with
      | some v => some v
      | none => some (.str s)

def RedisClient.delete (r : Redis) (now : Nat) (key : String) : Bool × Redis :=
  match r.delCmd now [key] with
  | .error _ => (false, r)
  | .ok (n, r2) => (n != 0, r2)

def RedisClient.existsKey (r : Redis) (now : Nat) (key : String) : Bool :=
  match r.existsCmd now key with
  | .error _ => false
  | .ok n => n != 0

def RedisClient.expire (r : Redis) (now : Nat) (key : String) (ttl : Nat) : Bool × Redis :=
  match r.expireCmd now key ttl with
  | .error _ => (false, r)
  | .ok (b, r2) => (b, r2)

/-- `RedisClient.clear_cache`: enumerate keys by pattern, bulk-delete them;
vacuous success when nothing matches. -/
def RedisClient.clear_cache (r : Redis) (now : Nat) (pattern : String) : Bool × Redis :=
  match r.keysCmd now pattern with
  | .error _ => (false, r)
  | .ok [] => (true, r)
  | .ok keys =>
      match r.delCmd now keys with
      | .error _ => (false, r)
      | .ok (n, r2) => (n != 0, r2)

/-- `RedisClient.get_cache_stats`: the five counters from `INFO`, with the
source's defaults; an empty mapping on any raise. -/
def RedisClient.get_cache_stats (r : Redis) : List (String × PyJson) :=
  match r.infoCmd with
  | .error _ => []
  | .ok info =>
      [("connected_clients", (List.lookup "connected_clients" info).getD (.int 0)),
       ("used_memory_human", (List.lookup "used_memory_human" info).getD (.str "0B")),
       ("total_commands_processed",
         (List.lookup "total_commands_processed" info).getD (.int 0)),
       ("keyspace_hits", (List.lookup "keyspace_hits" info).getD (.int 0)),
       ("keyspace_misses", (List.lookup "keyspace_misses" info).getD (.int 0))]

/-! ## The Django cache facade used by the views

`django.core.cache.cache` with the django-redis backend: `get` / `set` with
a TTL, `delete_pattern` (glob), and `clear`. The views put serialized
response data in and get an equal object back, so entries hold `PyJson`
values directly; expiry is kept as the stored TTL (no claim about the view
layer depends on the passage of time). -/

structure DjCache where
  entries : List (String × PyJson × Nat)

def DjCache.get (c : DjCache) (k : String) : Option PyJson :=
  (c.entries.find? fun e => e.1 == k).map fun e => e.2.1

def DjCache.set (c : DjCache) (k : String) (v : PyJson) (ttl : Nat) : DjCache :=
  ⟨(k, v, ttl) :: c.entries.filter fun e => e.1 != k⟩

def DjCache.deletePattern (c : DjCache) (pat : String) : DjCache :=
  ⟨c.entries.filter fun e => !globMatch pat e.1⟩

def DjCache.clear (_ : DjCache) : DjCache := ⟨[]⟩

/-! ## The Song model (`songs/models.py`)

All persisted fields, with `none` for SQL NULL. Float-valued columns carry
the float's exact rational value (every IEEE double is a rational and the
source only stores and compares them); `rating` is a `DecimalField`, also
exact. Timestamps are omitted: they are system-managed and no claim
mentions them. -/

structure Song where
  id : Nat := 0
  title : String := ""
  artist : String := ""
  album : Option String := none
  year : Option Int := none
  genre : Option String := none
  durationSec : Option Rat := none
  lyrics : Option String := none
  rating : Option Rat := none
  play_count : Nat := 0
  danceability : Option Rat := none
  energy : Option Rat := none
  key : Option Int := none
  loudness : Option Rat := none
  mode : Option Int := none
  acousticness : Option Rat := none
  instrumentalness : Option Rat := none
  liveness : Option Rat := none
  valence : Option Rat := none
  tempo : Option Rat := none
  duration_ms : Option Nat := none
  time_signature : Option Int := none
  num_bars : Option Nat := none
  num_sections : Option Nat := none
  num_segments : Option Nat := none
  song_class : Option String := none
deriving Repr, DecidableEq

/-- `Song.increment_play_count` (models.py 140–142). -/
def Song.increment_play_count (s : Song) : Song :=
  { s with play_count := s.play_count + 1 }

/-- Primary-key lookup, as `get_object` resolves `pk`. -/
def findSong (db : List Song) (id : Nat) : Option Song :=
  db.find? fun s => s.id == id

/-! ## Search (`SongViewSet.search`, views.py 174–205) -/

/-- Python whitespace for `str.strip()` / `float()` (the ASCII subset; the
repository's query strings are ASCII). -/
def isPyWs (c : Char) : Bool :=
  c = ' ' || c = Char.ofNat 9 || c = Char.ofNat 10 || c = Char.ofNat 11
    || c = Char.ofNat 12 || c = Char.ofNat 13

/-- The model of Python `str.strip()`: drop whitespace from both ends. -/
def pyStrip (s : String) : String :=
  String.mk (((s.data.dropWhile isPyWs).reverse.dropWhile isPyWs).reverse)

/-- Substring test: the needle occurs contiguously in the haystack. -/
def listIsInfix (needle : List Char) : List Char → Bool
  | [] => needle.isEmpty
  | c :: t => needle.isPrefixOf (c :: t) || listIsInfix needle t

/-- Case-insensitive containment, the observable behavior of the ORM's
`icontains` lookup. -/
def icontains (hay q : String) : Bool :=
  listIsInfix (q.data.map Char.toLower) (hay.data.map Char.toLower)

/-- `icontains` through a nullable column: SQL `LIKE` on NULL never matches. -/
def icontainsOpt : Option String → String → Bool
  | none, _ => false
  | some s, q => icontains s q

/-- The queryset the search action evaluates: `request.GET.get('q', '').strip()`,
all songs when that is empty, else the `title/artist/album` icontains
disjunction. The raw parameter is `none` when `q` is absent. -/
def searchFilter (qParam : Option String) (songs : List Song) : List Song :=
  let query := pyStrip (qParam.getD "")
  if query = "" then songs
  else
    songs.filter fun s =>
      icontains s.title query || icontains s.artist query || icontainsOpt s.album query

/-! ## Responses and serialization

Serialized bodies are compared by the claims only for equality with other
payloads, so the serializer is modelled on the identifying field subset
(id, title, artist, album, play_count); decimal/float text formatting and
the remaining columns do not bear on any claim. -/

structure HttpResponse where
  status : Nat
  body : PyJson
deriving Repr

def serializeSong (s : Song) : PyJson :=
  .obj [("id", .int s.id), ("title", .str s.title), ("artist", .str s.artist),
        ("album", s.album.elim PyJson.null PyJson.str), ("play_count", .int s.play_count)]

/-- The DRF pagination envelope for a single-page result. -/
def pageEnvelope (results : List Song) : PyJson :=
  .obj [("count", .int results.length), ("next", .null), ("previous", .null),
        ("results", .arr (results.map serializeSong))]

def errorBody (msg : String) : PyJson := .obj [("error", .str msg)]

/-- Python truthiness of a JSON-shaped value, as `if cached_response:` tests. -/
def pyTruthy : PyJson → Bool
  | .null => false
  | .bool b => b
  | .int n => n != 0
  | .str s => s != ""
  | .arr items => !items.isEmpty
  | .obj pairs => !pairs.isEmpty

/-! ## Python `float()` for the rate action -/

/-- The values `request.data.get('rating')` can produce from a JSON body,
other than the absent/null case (which `.get` collapses to `None`). A
number is carried by its exact rational value. -/
inductive ReqVal where
  | num (q : Rat)
  | str (s : String)
  | boolv (b : Bool)
  | listv
  | dictv

/-- A Python float result: finite (exact rational value), or one of the
special values `float()` can return. -/
inductive PyFloat where
  | fin (q : Rat)
  | nan
  | inf
  | ninf
deriving DecidableEq

/-- Decimal digits to a natural number, `none` if empty. -/
def digitsNum (ds : List Char) : Option Nat :=
  if ds.isEmpty then none else some (digitsVal ds)

/-- Parse the suffix of a float literal after the optional sign: `nan`,
`inf`/`infinity`, or a decimal form `ddd[.ddd][e[+-]ddd]` (at least one
digit overall). Underscored and non-ASCII digit forms accepted by CPython
are not modelled; they only shift which 400 message the rate action picks. -/
def parseFloatBody (cs : List Char) : Option PyFloat :=
  if cs = ['n', 'a', 'n'] then some .nan
  else if cs = ['i', 'n', 'f'] ∨ cs = ['i', 'n', 'f', 'i', 'n', 'i', 't', 'y'] then some .inf
  else
    let (ip, r1) := spanDigits cs
    let (fp, r2) := match r1 with
      | '.' :: t => spanDigits t
      | _ => ([], r1)
    if ip.isEmpty ∧ fp.isEmpty then none
    else
      let mant : Rat := (digitsVal ip : Rat) + (digitsVal fp : Rat) / ((10 : Rat) ^ fp.length)
      match r2 with
      | [] => some (.fin mant)
      | 'e' :: t | 'E' :: t =>
          let (sgn, t2) : Bool × List Char := match t with
            | '+' :: t2 => (false, t2)
            | '-' :: t2 => (true, t2)
            | _ => (false, t)
          match digitsNum t2 with
          | none => none
          | some e =>
              if (spanDigits t2).2.isEmpty then
                some (.fin (if sgn then mant / (10 : Rat) ^ e else mant * (10 : Rat) ^ e))
              else none
      | _ => none

/-- The model of `float(s)` on a string: optional surrounding whitespace,
optional sign, then a float body (case-insensitive for `nan`/`inf`). -/
def pyFloatOfString (s : String) : Option PyFloat :=
  let cs := ((pyStrip s).data.map Char.toLower)
  match cs with
  | '+' :: t => parseFloatBody t
  | '-' :: t =>
      match parseFloatBody t with
      | some (.fin q) => some (.fin (-q))
      | some .inf => some .ninf
      | some .nan => some .nan
      | other => other
  | t => parseFloatBody t

/-- The model of `float(rating)`: numbers pass through, booleans coerce to
0.0/1.0 (`bool` is an `int` subclass), strings are parsed, containers raise
`TypeError` (`none`). -/
def pyFloat : ReqVal → Option PyFloat
  | .num q => some (.fin q)
  | .boolv b => some (.fin (if b then 1 else 0))
  | .str s => pyFloatOfString s
  | .listv => none
  | .dictv => none

/-- The chained comparison `0.0 <= rating <= 5.0`: false for `nan` (every
comparison with it is false) and for the infinities. -/
def PyFloat.inRatingRange : PyFloat → Bool
  | .fin q => decide ((0 : Rat) ≤ q) && decide (q ≤ (5 : Rat))
  | _ => false

/-! ## The view handlers (`SongViewSet`, songs/views.py)

Each handler is a function of the request data, the catalog (`db : List
Song`, the Catalog Store) and the Django cache, returning the response and
the successor state. Database filtering and pagination performed by the
framework inside `list` (views.py 68–75) are abstracted as the handler's
`storeData` argument: the serialized payload the store query produces;
everything the claims are about — cache keys, hit/miss logic, TTLs,
invalidation, validation — is concrete. -/

/-- `SongViewSet._clear_related_caches` (views.py 440–451): delete the
`songs_list_*`, `songs_search_*` and `songs_stats_*` key families. -/
def SongViewSet.clearRelatedCaches (c : DjCache) : DjCache :=
  ((c.deletePattern "songs_list_*").deletePattern "songs_search_*").deletePattern
    "songs_stats_*"

/-- `SongViewSet.list` (views.py 53–87): compute the fingerprint key, return
a truthy cached payload, otherwise query the store, cache the payload for
300 seconds and return it. -/
def SongViewSet.list (storeData : PyJson) (params : List (String × String))
    (c : DjCache) : HttpResponse × DjCache :=
  let key := getCacheKey params "list"
  let miss : HttpResponse × DjCache := (⟨200, storeData⟩, c.set key storeData 300)
  match c.get key with
  | some v => if pyTruthy v then (⟨200, v⟩, c) else miss
  | none => miss

/-- `SongViewSet.search` (views.py 174–205): evaluate the filtered queryset
and return it paginated. The cache is neither read nor written. -/
def SongViewSet.search (qParam : Option String) (db : List Song) (c : DjCache) :
    HttpResponse × DjCache :=
  (⟨200, pageEnvelope (searchFilter qParam db)⟩, c)

/-- `SongViewSet.top_rated` (views.py 207–227): rated songs by rating
descending, paginated; no cache interaction. -/
def SongViewSet.top_rated (db : List Song) (c : DjCache) : HttpResponse × DjCache :=
  (⟨200, pageEnvelope ((db.filter fun s => s.rating.isSome).mergeSort
      fun a b => (b.rating.getD 0) ≤ (a.rating.getD 0))⟩, c)

/-- `SongViewSet.most_played` (views.py 229–249): songs by play count
descending, paginated; no cache interaction. -/
def SongViewSet.most_played (db : List Song) (c : DjCache) : HttpResponse × DjCache :=
  (⟨200, pageEnvelope (db.mergeSort fun a b => b.play_count ≤ a.play_count)⟩, c)

/-- `SongViewSet.stats` (views.py 251–287): aggregate counters; no cache
interaction. The float-valued `average_rating` and the `top_genres`
grouping are omitted from the modelled body (no claim depends on them). -/
def SongViewSet.stats (db : List Song) (c : DjCache) : HttpResponse × DjCache :=
  let rated := db.filter fun s => s.rating.isSome
  (⟨200, .obj [("total_songs", .int db.length),
               ("total_plays", .int (db.map fun s => (s.play_count : Int)).sum),
               ("songs_with_ratings", .int rated.length),
               ("songs_without_ratings", .int (db.length - rated.length))]⟩, c)

/-- `SongViewSet.create` (views.py 100–120): persist the validated song
(serializer validation abstracted: `newSong` is the saved instance), clear
the related cache families, 201 with the serialized song. -/
def SongViewSet.create (newSong : Song) (db : List Song) (c : DjCache) :
    HttpResponse × List Song × DjCache :=
  (⟨201, serializeSong newSong⟩, db ++ [newSong], SongViewSet.clearRelatedCaches c)

/-- `SongViewSet.update` (views.py 135–153): partial update of the resolved
song (the validated field changes abstracted as `patch`), clear the related
caches. A failed object resolution is caught and reported as 500. -/
def SongViewSet.update (id : Nat) (patch : Song → Song) (db : List Song) (c : DjCache) :
    HttpResponse × List Song × DjCache :=
  match findSong db id with
  | none => (⟨500, errorBody "An error occurred while updating the song"⟩, db, c)
  | some s =>
      let s2 := patch s
      (⟨200, serializeSong s2⟩, db.map fun x => if x.id == id then s2 else x,
       SongViewSet.clearRelatedCaches c)

/-- `SongViewSet.destroy` (views.py 155–172): delete the resolved song,
clear the related caches, 204. -/
def SongViewSet.destroy (id : Nat) (db : List Song) (c : DjCache) :
    HttpResponse × List Song × DjCache :=
  match findSong db id with
  | none => (⟨500, errorBody "An error occurred while deleting the song"⟩, db, c)
  | some _ =>
      (⟨204, .null⟩, db.filter fun x => x.id != id, SongViewSet.clearRelatedCaches c)

/-- `SongViewSet.play` (views.py 289–309): increment the song's play count,
clear the related caches, return the new count. -/
def SongViewSet.play (id : Nat) (db : List Song) (c : DjCache) :
    HttpResponse × List Song × DjCache :=
  match findSong db id with
  | none => (⟨500, errorBody "An error occurred while updating play count"⟩, db, c)
  | some song =>
      let s2 := song.increment_play_count
      (⟨200, .obj [("message", .str ("Play count incremented for " ++ song.title)),
                   ("play_count", .int s2.play_count)]⟩,
       db.map fun x => if x.id == id then s2 else x,
       SongViewSet.clearRelatedCaches c)

/-- Decimal text of a rating, standing in for `str(song.rating)` (the exact
decimal-to-text form does not bear on any claim). -/
def ratingText (q : Rat) : String := toString q

/-- `SongViewSet.rate` (views.py 311–354): missing rating, then `float()`
conversion, then the `0.0 <= rating <= 5.0` check; set and save the rating
and clear related caches on success; every rejection is a 400 that leaves
the catalog untouched. -/
def SongViewSet.rate (id : Nat) (body : Option ReqVal) (db : List Song) (c : DjCache) :
    HttpResponse × List Song × DjCache :=
  match findSong db id with
  | none => (⟨500, errorBody "An error occurred while rating the song"⟩, db, c)
  | some song =>
      match body with
      | none => (⟨400, errorBody "Rating is required"⟩, db, c)
      | some v =>
          match pyFloat v with
          | none => (⟨400, errorBody "Invalid rating value"⟩, db, c)
          | some f =>
              match f with
              | .fin q =>
                  if (0 : Rat) ≤ q ∧ q ≤ 5 then
                    let s2 := { song with rating := some q }
                    (⟨200, .obj [("message", .str ("Rating updated for " ++ song.title)),
                                 ("rating", .str (ratingText q))]⟩,
                     db.map fun x => if x.id == id then s2 else x,
                     SongViewSet.clearRelatedCaches c)
                  else (⟨400, errorBody "Rating must be between 0.0 and 5.0"⟩, db, c)
              | _ => (⟨400, errorBody "Rating must be between 0.0 and 5.0"⟩, db, c)

/-- `SongViewSet.load_data` (views.py 356–438): refuse with 400 when the
catalog is non-empty; 404 when the data file is missing; otherwise persist
the songs built from the file (the per-record loop with its random
placeholder ratings and play counts is abstracted as the `imported` list)
and clear the whole cache. -/
def SongViewSet.load_data (fileFound : Bool) (imported : List Song)
    (db : List Song) (c : DjCache) : HttpResponse × List Song × DjCache :=
  if db.isEmpty = false then
    (⟨400, .obj [("message", .str "Data already loaded. Use force=true to reload."),
                 ("existing_count", .int db.length)]⟩, db, c)
  else if fileFound = false then
    (⟨404, errorBody "Data file not found"⟩, db, c)
  else
    (⟨201, .obj [("message", .str "Successfully loaded songs"),
                 ("songs_created", .int imported.length)]⟩,
     db ++ imported, DjCache.clear c)

/-! ## Interleaved requests (for the play-count property)

A request stream over one system state: plays interleaved with the five
read-style operations. Read handlers return the catalog unchanged by
construction, mirroring that they execute no store mutation. -/

inductive Request where
  | play (id : Nat)
  | readList (storeData : PyJson) (params : List (String × String))
  | readSearch (qParam : Option String)
  | readTopRated
  | readMostPlayed
  | readStats

structure SysState where
  db : List Song
  cache : DjCache

def stepRequest (st : SysState) : Request → SysState
  | .play id =>
      let r := SongViewSet.play id st.db st.cache
      ⟨r.2.1, r.2.2⟩
  | .readList storeData params => ⟨st.db, (SongViewSet.list storeData params st.cache).2⟩
  | .readSearch qParam => ⟨st.db, (SongViewSet.search qParam st.db st.cache).2⟩
  | .readTopRated => ⟨st.db, (SongViewSet.top_rated st.db st.cache).2⟩
  | .readMostPlayed => ⟨st.db, (SongViewSet.most_played st.db st.cache).2⟩
  | .readStats => ⟨st.db, (SongViewSet.stats st.db st.cache).2⟩

def runRequests (st : SysState) (rs : List Request) : SysState :=
  rs.foldl stepRequest st

/-- The number of play requests for a given song in a stream. -/
def countPlays (rs : List Request) (id : Nat) : Nat :=
  rs.countP fun r => match r with
    | .play j => j == id
    | _ => false

/-! ## Support lemmas for the claims -/

/-- After a pattern delete, no key matching the pattern resolves. -/
theorem get_deletePattern_matching (c : DjCache) (pat k : String)
    (h : globMatch pat k = true) : (c.deletePattern pat).get k = none := by
  unfold DjCache.deletePattern DjCache.get
  rw [Option.map_eq_none']
  rw [List.find?_eq_none]
  intro e he
  rw [List.mem_filter] at he
  intro hk
  rw [beq_iff_eq] at hk
  rw [hk] at he
  simp [h] at he

/-- A pattern delete cannot resurrect a missing key. -/
theorem get_deletePattern_mono (c : DjCache) (pat k : String) (h : c.get k = none) :
    (c.deletePattern pat).get k = none := by
  unfold DjCache.deletePattern DjCache.get
  unfold DjCache.get at h
  rw [Option.map_eq_none'] at h ⊢
  rw [List.find?_eq_none] at h ⊢
  intro e he
  exact h e (List.mem_filter.mp he).1

/-- `_clear_related_caches` leaves no key of the three families resolvable. -/
theorem clearRelated_clears (c : DjCache) (k : String)
    (h : globMatch "songs_list_*" k = true ∨ globMatch "songs_search_*" k = true
      ∨ globMatch "songs_stats_*" k = true) :
    (SongViewSet.clearRelatedCaches c).get k = none := by
  unfold SongViewSet.clearRelatedCaches
  rcases h with h | h | h
  · exact get_deletePattern_mono _ _ _
      (get_deletePattern_mono _ _ _ (get_deletePattern_matching c _ k h))
  · exact get_deletePattern_mono _ _ _ (get_deletePattern_matching _ _ k h)
  · exact get_deletePattern_matching _ _ k h

/-- The found song carries the probed id. -/
theorem findSong_id (db : List Song) (id : Nat) (song : Song)
    (h : findSong db id = some song) : song.id = id := by
  have := List.find?_some h
  simpa using this

/-- Lookup after updating the entries with the probed id. -/
theorem findSong_update (db : List Song) (id : Nat) (s2 song : Song) (hid : s2.id = id)
    (h : findSong db id = some song) :
    findSong (db.map fun x => if x.id == id then s2 else x) id = some s2 := by
  induction db with
  | nil => simp [findSong] at h
  | cons x t ih =>
      by_cases hx : x.id = id
      · have hifx : (if (x.id == id) = true then s2 else x) = s2 := by simp [hx]
        simp only [findSong, List.map_cons, hifx]
        rw [List.find?_cons_of_pos _ (by simp [hid])]
      · have hb : (x.id == id) = false := by simpa using hx
        have hifx : (if (x.id == id) = true then s2 else x) = x := by simp [hb]
        simp only [findSong, List.map_cons, hifx]
        rw [List.find?_cons_of_neg _ (by simp [hx])]
        unfold findSong at h ih
        rw [List.find?_cons_of_neg _ (by simp [hx])] at h
        exact ih h

/-- Updating entries of a different id does not change the lookup. -/
theorem findSong_update_other (db : List Song) (id j : Nat) (s2 : Song)
    (hid : s2.id = j) (hne : j ≠ id) :
    findSong (db.map fun x => if x.id == j then s2 else x) id = findSong db id := by
  induction db with
  | nil => rfl
  | cons x t ih =>
      by_cases hx : x.id = j
      · have hifx : (if (x.id == j) = true then s2 else x) = s2 := by simp [hx]
        simp only [findSong, List.map_cons, hifx]
        rw [List.find?_cons_of_neg _ (by simp [hid]; exact hne),
          List.find?_cons_of_neg _ (by simp [hx]; exact hne)]
        exact ih
      · have hifx : (if (x.id == j) = true then s2 else x) = x := by simp [hx]
        simp only [findSong, List.map_cons, hifx]
        by_cases hxi : x.id = id
        · rw [List.find?_cons_of_pos _ (by simp [hxi]),
            List.find?_cons_of_pos _ (by simp [hxi])]
        · rw [List.find?_cons_of_neg _ (by simp [hxi]),
            List.find?_cons_of_neg _ (by simp [hxi])]
          exact ih

/-- Equal play counts give equal record updates. -/
theorem song_pc_ext (s : Song) (a b : Nat) (h : a = b) :
    ({ s with play_count := a } : Song) = { s with play_count := b } := by rw [h]

/-- Running a request stream adds exactly the number of plays aimed at a
song to its play count, whatever reads are interleaved. -/
theorem runRequests_play_count (id : Nat) :
    ∀ (rs : List Request) (st : SysState) (song : Song),
      findSong st.db id = some song →
      findSong (runRequests st rs).db id
        = some { song with play_count := song.play_count + countPlays rs id } := by
  intro rs
  induction rs with
  | nil =>
      intro st song hfind
      simpa [runRequests, countPlays] using hfind
  | cons r t ih =>
      intro st song hfind
      have hrun : runRequests st (r :: t) = runRequests (stepRequest st r) t := rfl
      rw [hrun]
      cases r with
      | play j =>
          by_cases hj : j = id
          · subst hj
            have hstep : (stepRequest st (Request.play j)).db
                = st.db.map fun x => if x.id == j then song.increment_play_count else x := by
              simp [stepRequest, SongViewSet.play, hfind]
            have hfind2 : findSong (stepRequest st (Request.play j)).db j
                = some song.increment_play_count := by
              rw [hstep]
              exact findSong_update st.db j _ song (findSong_id st.db j song hfind) hfind
            rw [ih (stepRequest st (Request.play j)) song.increment_play_count hfind2]
            have hcnt : countPlays (Request.play j :: t) j = countPlays t j + 1 := by
              simp [countPlays, List.countP_cons]
            rw [hcnt]
            exact congrArg some (song_pc_ext song _ _
              (by simp [Song.increment_play_count]; omega))
          · have hcnt : countPlays (Request.play j :: t) id = countPlays t id := by
              simp [countPlays, List.countP_cons, hj]
            rw [hcnt]
            cases hfj : findSong st.db j with
            | none =>
                have hstep : (stepRequest st (Request.play j)).db = st.db := by
                  simp [stepRequest, SongViewSet.play, hfj]
                refine ih (stepRequest st (Request.play j)) song ?_
                rw [hstep]
                exact hfind
            | some s =>
                have hstep : (stepRequest st (Request.play j)).db
                    = st.db.map fun x => if x.id == j then s.increment_play_count else x := by
                  simp [stepRequest, SongViewSet.play, hfj]
                refine ih (stepRequest st (Request.play j)) song ?_
                rw [hstep,
                  findSong_update_other st.db id j s.increment_play_count
                    (findSong_id st.db j s hfj) hj]
                exact hfind
      | readList sd ps =>
          rw [show countPlays (Request.readList sd ps :: t) id = countPlays t id from by
            simp [countPlays, List.countP_cons]]
          exact ih _ song hfind
      | readSearch qp =>
          rw [show countPlays (Request.readSearch qp :: t) id = countPlays t id from by
            simp [countPlays, List.countP_cons]]
          exact ih _ song hfind
      | readTopRated =>
          rw [show countPlays (Request.readTopRated :: t) id = countPlays t id from by
            simp [countPlays, List.countP_cons]]
          exact ih _ song hfind
      | readMostPlayed =>
          rw [show countPlays (Request.readMostPlayed :: t) id = countPlays t id from by
            simp [countPlays, List.countP_cons]]
          exact ih _ song hfind
      | readStats =>
          rw [show countPlays (Request.readStats :: t) id = countPlays t id from by
            simp [countPlays, List.countP_cons]]
          exact ih _ song hfind

/-! ## The claims -/

/-- C1: query fingerprinting is a deterministic pure function of the
operation name and the request-parameter mapping. The generated key always
equals `songs_` ++ action ++ `_` ++ the hex digest of the 128-bit MD5 hash
of the sorted-key JSON serialization of the parameter mapping extended with
the action name; and two requests whose parameter mappings are equal as
mappings (pointwise-equal lookups, regardless of original parameter order
and with last-value-wins duplicates) produce the identical key. -/
theorem cache_key_fingerprint (action : String) (p1 p2 : List (String × String))
    (h : ∀ k, List.lookup k (paramsDict p1) = List.lookup k (paramsDict p2)) :
    getCacheKey p1 action
      = "songs_" ++ action ++ "_"
        ++ md5Hex (jsonDumps (.obj ((dictInsert (paramsDict p1) "action" action).map
            fun kv => (kv.1, .str kv.2))))
    ∧ getCacheKey p1 action = getCacheKey p2 action := by
  have heq : paramsDict p1 = paramsDict p2 :=
    sorted_lookup_ext _ _ (paramsDict_sorted p1) (paramsDict_sorted p2) h
  refine ⟨rfl, ?_⟩
  unfold getCacheKey
  rw [heq]

/-- Witness for C1 at two orderings of the same two-parameter mapping. -/
theorem cache_key_fingerprint_witness :
    getCacheKey [("b", "2"), ("a", "1")] "list"
      = getCacheKey [("a", "1"), ("b", "2")] "list" := by
  have hpd : paramsDict [("b", "2"), ("a", "1")] = paramsDict [("a", "1"), ("b", "2")] := by
    decide
  exact (cache_key_fingerprint "list" [("b", "2"), ("a", "1")] [("a", "1"), ("b", "2")]
    fun k => by rw [hpd]).2

/-- C4: the Cache Facade round-trip. If `set` stores a mapping or sequence
value successfully, a `get` before expiry returns an equal value (the text
written by `json.dumps` is recovered by `json.loads`); and on a store where
a key was never set, `get` returns `None`. -/
theorem redis_set_get_roundtrip (r : Redis) (now now2 : Nat) (key : String)
    (v : PyJson) (ttl : Option Nat)
    (hv : (∃ ps, v = .obj ps) ∨ (∃ xs, v = .arr xs))
    (hset : (RedisClient.set r now key v ttl).1 = true)
    (hfresh : now2 < now + resolveTtl ttl) :
    RedisClient.get (RedisClient.set r now key v ttl).2 now2 key = some v
    ∧ (∀ k n info, RedisClient.get ⟨[], false, info⟩ n k = none) := by
  constructor
  · cases hr : r.failing with
    | true =>
        exfalso
        have : (RedisClient.set r now key v ttl).1 = false := by
          rcases hv with ⟨ps, rfl⟩ | ⟨xs, rfl⟩ <;>
            simp [RedisClient.set, Redis.setexCmd, hr]
        rw [this] at hset
        exact Bool.false_ne_true hset
    | false =>
        have hroundtrip := jsonLoads_jsonDumps v
        rcases hv with ⟨ps, rfl⟩ | ⟨xs, rfl⟩ <;>
          simp [RedisClient.set, Redis.setexCmd, redisEncode, RedisClient.get,
            Redis.getCmd, hr, List.find?_cons_of_pos, hfresh, hroundtrip]
  · intro k n info
    simp [RedisClient.get, Redis.getCmd, List.find?]

/-- Witness for C4: a one-pair mapping stored at time 0, read at time 5. -/
theorem redis_set_get_roundtrip_witness :
    RedisClient.get
      (RedisClient.set ⟨[], false, []⟩ 0 "songs_list_x" (.obj [("a", .int 1)]) none).2
      5 "songs_list_x" = some (.obj [("a", .int 1)]) :=
  (redis_set_get_roundtrip ⟨[], false, []⟩ 0 5 "songs_list_x" (.obj [("a", .int 1)]) none
    (Or.inl ⟨_, rfl⟩) rfl (by decide)).1

/-- C8: every Cache Facade operation is failure-tolerant. On a failing
cache connection (every underlying command raises), `set`, `delete`,
`exists`, `expire` and `clear_cache` return `False`, `get` returns `None`,
and `get_cache_stats` returns the empty mapping; none of them propagates
the exception (each facade function is total by construction). -/
theorem redis_failure_tolerance (r : Redis) (hfail : r.failing = true) :
    (∀ now key v ttl, RedisClient.set r now key v ttl = (false, r))
    ∧ (∀ now key, RedisClient.get r now key = none)
    ∧ (∀ now key, RedisClient.delete r now key = (false, r))
    ∧ (∀ now key, RedisClient.existsKey r now key = false)
    ∧ (∀ now key ttl, RedisClient.expire r now key ttl = (false, r))
    ∧ (∀ now pattern, RedisClient.clear_cache r now pattern = (false, r))
    ∧ RedisClient.get_cache_stats r = [] := by
  refine ⟨?_, ?_, ?_, ?_, ?_, ?_, ?_⟩
  · intro now key v ttl
    cases v <;> simp [RedisClient.set, Redis.setexCmd, hfail]
  · intro now key
    simp [RedisClient.get, Redis.getCmd, hfail]
  · intro now key
    simp [RedisClient.delete, Redis.delCmd, hfail]
  · intro now key
    simp [RedisClient.existsKey, Redis.existsCmd, hfail]
  · intro now key ttl
    simp [RedisClient.expire, Redis.expireCmd, hfail]
  · intro now pattern
    simp [RedisClient.clear_cache, Redis.keysCmd, hfail]
  · simp [RedisClient.get_cache_stats, Redis.infoCmd, hfail]

/-- Witness for C8 on a concrete failing store holding one entry. -/
theorem redis_failure_tolerance_witness :
    RedisClient.get ⟨[("k", "v", 10)], true, []⟩ 3 "k" = none :=
  (redis_failure_tolerance ⟨[("k", "v", 10)], true, []⟩ rfl).2.1 3 "k"

/-- C9: the bulk-load endpoint refuses with 400 whenever the catalog
already holds a song, creating nothing and leaving the catalog and cache
unchanged; with an empty catalog it proceeds — importing (and clearing the
cache) when the data file exists, or a 404 when it does not. -/
theorem load_data_guard :
    (∀ (db : List Song) c fileFound imported, db ≠ [] →
        SongViewSet.load_data fileFound imported db c
          = (⟨400, .obj [("message", .str "Data already loaded. Use force=true to reload."),
                         ("existing_count", .int db.length)]⟩, db, c))
    ∧ (∀ c imported, SongViewSet.load_data true imported [] c
        = (⟨201, .obj [("message", .str "Successfully loaded songs"),
                       ("songs_created", .int imported.length)]⟩, imported, ⟨[]⟩))
    ∧ (∀ c imported, SongViewSet.load_data false imported [] c
        = (⟨404, errorBody "Data file not found"⟩, [], c)) := by
  refine ⟨?_, ?_, ?_⟩
  · intro db c fileFound imported hne
    have h : db.isEmpty = false := by
      cases db with
      | nil => exact absurd rfl hne
      | cons x t => rfl
    simp [SongViewSet.load_data, h]
  · intro c imported
    simp [SongViewSet.load_data, DjCache.clear, List.isEmpty]
  · intro c imported
    simp [SongViewSet.load_data, List.isEmpty]

/-- Witness for C9 on a one-song catalog. -/
theorem load_data_guard_witness :
    SongViewSet.load_data true [] [{ id := 1 }] ⟨[]⟩
      = (⟨400, .obj [("message", .str "Data already loaded. Use force=true to reload."),
                     ("existing_count", .int 1)]⟩, [{ id := 1 }], ⟨[]⟩) :=
  (load_data_guard).1 [{ id := 1 }] ⟨[]⟩ true [] (by simp)

/-- C10: in the list operation a falsy cached payload is treated as a
cache miss: the store result is returned and re-cached (for 300 seconds)
exactly as on a miss, so an empty cached response is never served from the
cache. -/
theorem list_falsy_cached_is_miss (storeData : PyJson) (params : List (String × String))
    (c : DjCache) (v : PyJson)
    (hc : c.get (getCacheKey params "list") = some v) (hfalsy : pyTruthy v = false) :
    SongViewSet.list storeData params c
      = (⟨200, storeData⟩, c.set (getCacheKey params "list") storeData 300) := by
  simp only [SongViewSet.list]
  rw [hc]
  simp [hfalsy]

/-- C2: every mutating operation — create, update, destroy, rate, play and
bulk-load — ends with every cached entry of the `songs_list_*`,
`songs_search_*` and `songs_stats_*` key families deleted, so any key
matching one of the three patterns misses immediately after the mutation
commits. -/
theorem write_invalidation (k : String)
    (hk : globMatch "songs_list_*" k = true ∨ globMatch "songs_search_*" k = true
        ∨ globMatch "songs_stats_*" k = true) :
    (∀ newSong db c, ((SongViewSet.create newSong db c).2.2).get k = none)
    ∧ (∀ id patch db c song, findSong db id = some song →
        ((SongViewSet.update id patch db c).2.2).get k = none)
    ∧ (∀ id db c song, findSong db id = some song →
        ((SongViewSet.destroy id db c).2.2).get k = none)
    ∧ (∀ id db c song (q : Rat), findSong db id = some song → 0 ≤ q → q ≤ 5 →
        ((SongViewSet.rate id (some (.num q)) db c).2.2).get k = none)
    ∧ (∀ id db c song, findSong db id = some song →
        ((SongViewSet.play id db c).2.2).get k = none)
    ∧ (∀ imported c, ((SongViewSet.load_data true imported [] c).2.2).get k = none) := by
  refine ⟨?_, ?_, ?_, ?_, ?_, ?_⟩
  · intro newSong db c
    exact clearRelated_clears c k hk
  · intro id patch db c song hfind
    simp only [SongViewSet.update, hfind]
    exact clearRelated_clears c k hk
  · intro id db c song hfind
    simp only [SongViewSet.destroy, hfind]
    exact clearRelated_clears c k hk
  · intro id db c song q hfind h0 h5
    simp only [SongViewSet.rate, hfind, pyFloat]
    rw [if_pos ⟨h0, h5⟩]
    exact clearRelated_clears c k hk
  · intro id db c song hfind
    simp only [SongViewSet.play, hfind]
    exact clearRelated_clears c k hk
  · intro imported c
    simp [SongViewSet.load_data, DjCache.clear, DjCache.get, List.find?, List.isEmpty]

/-- Witness for C2: a play on a one-song catalog clears a cached list key. -/
theorem write_invalidation_witness :
    ((SongViewSet.play 1 [{ id := 1 }] ⟨[("songs_list_k", .arr [], 300)]⟩).2.2).get
      "songs_list_k" = none :=
  (write_invalidation "songs_list_k" (Or.inl (by decide))).2.2.2.2.1
    1 [{ id := 1 }] ⟨[("songs_list_k", .arr [], 300)]⟩ { id := 1 } rfl

/-- C5: the rate operation accepts exactly the finite ratings in [0, 5]: an
in-range numeric rating is stored on the song (subsequent lookup sees it)
with a 200; an out-of-range numeric rating, a missing rating, and a
non-numeric rating are each rejected with a 400 that leaves the catalog —
in particular the song's stored rating — and the cache unchanged. -/
theorem rate_boundaries (id : Nat) (db : List Song) (c : DjCache) (song : Song)
    (hfind : findSong db id = some song) :
    (∀ q : Rat, 0 ≤ q → q ≤ 5 →
        SongViewSet.rate id (some (.num q)) db c
          = (⟨200, .obj [("message", .str ("Rating updated for " ++ song.title)),
                         ("rating", .str (ratingText q))]⟩,
             db.map fun x => if x.id == id then { song with rating := some q } else x,
             SongViewSet.clearRelatedCaches c)
        ∧ findSong (SongViewSet.rate id (some (.num q)) db c).2.1 id
            = some { song with rating := some q })
    ∧ (∀ q : Rat, ¬(0 ≤ q ∧ q ≤ 5) →
        SongViewSet.rate id (some (.num q)) db c
          = (⟨400, errorBody "Rating must be between 0.0 and 5.0"⟩, db, c))
    ∧ SongViewSet.rate id none db c = (⟨400, errorBody "Rating is required"⟩, db, c)
    ∧ (∀ v, pyFloat v = none →
        SongViewSet.rate id (some v) db c
          = (⟨400, errorBody "Invalid rating value"⟩, db, c)) := by
  refine ⟨?_, ?_, ?_, ?_⟩
  · intro q h0 h5
    have h1 : SongViewSet.rate id (some (.num q)) db c
        = (⟨200, .obj [("message", .str ("Rating updated for " ++ song.title)),
                       ("rating", .str (ratingText q))]⟩,
           db.map fun x => if x.id == id then { song with rating := some q } else x,
           SongViewSet.clearRelatedCaches c) := by
      simp only [SongViewSet.rate, hfind, pyFloat]
      rw [if_pos ⟨h0, h5⟩]
    refine ⟨h1, ?_⟩
    rw [h1]
    exact findSong_update db id _ song (findSong_id db id song hfind) hfind
  · intro q hq
    simp only [SongViewSet.rate, hfind, pyFloat]
    rw [if_neg hq]
  · simp [SongViewSet.rate, hfind]
  · intro v hv
    simp only [SongViewSet.rate, hfind, hv]

/-- Witness for C5: rating 5 accepted and stored on a 4.5-rated song, and
rating 5.01 rejected with the catalog unchanged. -/
theorem rate_boundaries_witness :
    findSong (SongViewSet.rate 1 (some (.num 5))
        [{ id := 1, title := "T", rating := some ((9 : Rat)/2) }] ⟨[]⟩).2.1 1
      = some { id := 1, title := "T", rating := some (5 : Rat) }
    ∧ SongViewSet.rate 1 (some (.num ((501 : Rat)/100)))
        [{ id := 1, title := "T", rating := some ((9 : Rat)/2) }] ⟨[]⟩
      = (⟨400, errorBody "Rating must be between 0.0 and 5.0"⟩,
         [{ id := 1, title := "T", rating := some ((9 : Rat)/2) }], ⟨[]⟩) :=
  ⟨((rate_boundaries 1 [{ id := 1, title := "T", rating := some ((9 : Rat)/2) }] ⟨[]⟩
      { id := 1, title := "T", rating := some ((9 : Rat)/2) } rfl).1
      5 (by norm_num) (by norm_num)).2,
   (rate_boundaries 1 [{ id := 1, title := "T", rating := some ((9 : Rat)/2) }] ⟨[]⟩
      { id := 1, title := "T", rating := some ((9 : Rat)/2) } rfl).2.1
      ((501 : Rat)/100) (by norm_num)⟩

/-- C6: a successful play increments the song's play count by exactly 1,
persists it, and reports the new count; and over any request stream, the
play count after the run equals the count before plus the number of plays
aimed at the song, regardless of interleaved reads. -/
theorem play_count_increments (id : Nat) :
    (∀ db c song, findSong db id = some song →
        SongViewSet.play id db c
          = (⟨200, .obj [("message", .str ("Play count incremented for " ++ song.title)),
                         ("play_count", .int (song.play_count + 1))]⟩,
             db.map fun x => if x.id == id then song.increment_play_count else x,
             SongViewSet.clearRelatedCaches c)
        ∧ findSong (SongViewSet.play id db c).2.1 id = some song.increment_play_count)
    ∧ (∀ (rs : List Request) (st : SysState) (song : Song),
        findSong st.db id = some song →
        findSong (runRequests st rs).db id
          = some { song with play_count := song.play_count + countPlays rs id }) := by
  refine ⟨?_, fun rs st song h => runRequests_play_count id rs st song h⟩
  intro db c song hfind
  have h1 : SongViewSet.play id db c
      = (⟨200, .obj [("message", .str ("Play count incremented for " ++ song.title)),
                     ("play_count", .int (song.play_count + 1))]⟩,
         db.map fun x => if x.id == id then song.increment_play_count else x,
         SongViewSet.clearRelatedCaches c) := by
    simp [SongViewSet.play, hfind, Song.increment_play_count]
  refine ⟨h1, ?_⟩
  rw [h1]
  exact findSong_update db id _ song (findSong_id db id song hfind) hfind

/-- Witness for C6: two plays with an interleaved stats read on a fresh
song end at play count 2. -/
theorem play_count_increments_witness :
    findSong (runRequests ⟨[{ id := 1 }], ⟨[]⟩⟩
        [.play 1, .readStats, .play 1]).db 1
      = some { id := 1, play_count := 2 } :=
  (play_count_increments 1).2 [.play 1, .readStats, .play 1]
    ⟨[{ id := 1 }], ⟨[]⟩⟩ { id := 1 } rfl

/-- C7 as claimed: search matches the query case-insensitively over title,
artist, album AND lyrics, returning every song where at least one of the
four fields contains it (empty query returning all). Stated from the
claim's words, to be compared with `searchFilter` from the source. -/
def searchClaimC7 : Prop :=
  ∀ (q : Option String) (db : List Song) (s : Song),
    s ∈ searchFilter q db ↔ s ∈ db ∧
      (pyStrip (q.getD "") = ""
        ∨ icontains s.title (pyStrip (q.getD "")) = true
        ∨ icontains s.artist (pyStrip (q.getD "")) = true
        ∨ icontainsOpt s.album (pyStrip (q.getD "")) = true
        ∨ icontainsOpt s.lyrics (pyStrip (q.getD "")) = true)

/-- A song whose lyrics — and no other field — contain the probe query. -/
def lyricsOnlySong : Song :=
  { id := 1, title := "T", artist := "A", lyrics := some "xfindmex" }

/-- C7 counterexample: a song whose lyrics — and no other field — contain
the query is NOT returned by the source's search filter, refuting the
claimed lyrics clause. -/
theorem search_over_lyrics_counterexample : ¬ searchClaimC7 := by
  intro h
  have hmem : lyricsOnlySong ∈ searchFilter (some "findme") [lyricsOnlySong] :=
    (h (some "findme") [lyricsOnlySong] lyricsOnlySong).mpr ⟨by simp, by decide⟩
  exact absurd hmem (by decide)

/-- C7 amended: the search filter matches the stripped query
case-insensitively over title, artist and album only — lyrics never
participate — and a query that strips to empty returns all songs. -/
theorem search_filter_spec (q : Option String) (db : List Song) (s : Song) :
    s ∈ searchFilter q db ↔ s ∈ db ∧
      (pyStrip (q.getD "") = ""
        ∨ icontains s.title (pyStrip (q.getD "")) = true
        ∨ icontains s.artist (pyStrip (q.getD "")) = true
        ∨ icontainsOpt s.album (pyStrip (q.getD "")) = true) := by
  simp only [searchFilter]
  by_cases hq : pyStrip (q.getD "") = ""
  · simp [hq]
  · rw [if_neg hq]
    simp [List.mem_filter, Bool.or_eq_true, hq, or_assoc]

/-- C3 as claimed: every read-style operation returns a truthy cached
payload verbatim on a hit under its fingerprint key. Stated from the
claim's words, to be compared with the source handlers. -/
def readThroughAllClaim : Prop :=
  (∀ storeData params c v, DjCache.get c (getCacheKey params "list") = some v →
      pyTruthy v = true → SongViewSet.list storeData params c = (⟨200, v⟩, c))
  ∧ (∀ qs db c v, DjCache.get c (getCacheKey [("q", qs)] "search") = some v →
      pyTruthy v = true → SongViewSet.search (some qs) db c = (⟨200, v⟩, c))
  ∧ (∀ db c v, DjCache.get c (getCacheKey [] "top_rated") = some v →
      pyTruthy v = true → SongViewSet.top_rated db c = (⟨200, v⟩, c))
  ∧ (∀ db c v, DjCache.get c (getCacheKey [] "most_played") = some v →
      pyTruthy v = true → SongViewSet.most_played db c = (⟨200, v⟩, c))
  ∧ (∀ db c v, DjCache.get c (getCacheKey [] "stats") = some v →
      pyTruthy v = true → SongViewSet.stats db c = (⟨200, v⟩, c))

/-- C3 counterexample: a truthy payload cached under the search fingerprint
key is ignored — search recomputes from the catalog and returns the
pagination envelope, not the cached value, refuting read-through for the
non-list read operations. -/
theorem read_through_all_counterexample : ¬ readThroughAllClaim := by
  intro h
  have hhit := h.2.1 "x" []
    ⟨[(getCacheKey [("q", "x")] "search", .obj [("count", .int 42)], 300)]⟩
    (.obj [("count", .int 42)])
    (by simp [DjCache.get, List.find?_cons_of_pos]) rfl
  have hbody := congrArg (fun p => p.1.body) hhit
  simp only [SongViewSet.search, searchFilter, pageEnvelope] at hbody
  simp at hbody

/-- C3 amended: only the list operation is read-through — truthy hit
returned verbatim, miss stored for 300 seconds and returned; the other four
read operations never consult or modify the cache: each returns a response
computed from the catalog alone and leaves the cache exactly as it was. -/
theorem read_through_only_list :
    (∀ storeData params c v, DjCache.get c (getCacheKey params "list") = some v →
        pyTruthy v = true → SongViewSet.list storeData params c = (⟨200, v⟩, c))
    ∧ (∀ storeData params c, DjCache.get c (getCacheKey params "list") = none →
        SongViewSet.list storeData params c
          = (⟨200, storeData⟩, DjCache.set c (getCacheKey params "list") storeData 300))
    ∧ (∀ qp db c, SongViewSet.search qp db c
        = (⟨200, pageEnvelope (searchFilter qp db)⟩, c))
    ∧ (∀ db c, SongViewSet.top_rated db c
        = (⟨200, pageEnvelope ((db.filter fun s => s.rating.isSome).mergeSort
            fun a b => (b.rating.getD 0) ≤ (a.rating.getD 0))⟩, c))
    ∧ (∀ db c, SongViewSet.most_played db c
        = (⟨200, pageEnvelope (db.mergeSort fun a b => b.play_count ≤ a.play_count)⟩, c))
    ∧ (∀ db c, SongViewSet.stats db c
        = (⟨200, .obj [("total_songs", .int db.length),
                       ("total_plays", .int (db.map fun s => (s.play_count : Int)).sum),
                       ("songs_with_ratings", .int (db.filter fun s => s.rating.isSome).length),
                       ("songs_without_ratings",
                         .int (db.length - (db.filter fun s => s.rating.isSome).length))]⟩,
           c)) := by
  refine ⟨?_, ?_, fun qp db c => rfl, fun db c => rfl, fun db c => rfl, fun db c => rfl⟩
  · intro storeData params c v hc hv
    simp only [SongViewSet.list]
    rw [hc]
    simp [hv]
  · intro storeData params c hc
    simp only [SongViewSet.list]
    rw [hc]

/-- Witness for the amended C3: a truthy cached number under the list key
is served verbatim; the search handler leaves a populated cache untouched. -/
theorem read_through_only_list_witness :
    SongViewSet.list (.arr []) [] ⟨[(getCacheKey [] "list", .int 7, 300)]⟩
      = (⟨200, .int 7⟩, ⟨[(getCacheKey [] "list", .int 7, 300)]⟩) :=
  read_through_only_list.1 (.arr []) [] ⟨[(getCacheKey [] "list", .int 7, 300)]⟩ (.int 7)
    (by simp [DjCache.get, List.find?_cons_of_pos]) rfl

/-- Witness for C10: an empty-array payload cached under the list key. -/
theorem list_falsy_cached_is_miss_witness :
    SongViewSet.list (.arr [.int 1]) []
        ⟨[(getCacheKey [] "list", .arr [], 300)]⟩
      = (⟨200, .arr [.int 1]⟩,
         DjCache.set ⟨[(getCacheKey [] "list", .arr [], 300)]⟩
           (getCacheKey [] "list") (.arr [.int 1]) 300) :=
  list_falsy_cached_is_miss (.arr [.int 1]) [] ⟨[(getCacheKey [] "list", .arr [], 300)]⟩
    (.arr []) (by simp [DjCache.get, List.find?_cons_of_pos]) rfl

end SongsRepo
